import Mathlib

/-!
# SSRF Defense Engine — verification of the natural-language specification

Shallow embedding of the url-fetcher repository's SSRF core:

* `src/common/normalize-ip.utils.ts` — `normalizeIPv4`, `isIpv4InCidr`,
  `isIPv6`, `isIPv6InCidr` (pure address classifier);
* `src/security/rules/rules.provider.ts` — the shipped `securityRulesConfig`;
* `src/security/policy/ssrf-policy.service.ts` — `isPrivateIp`,
  `validateUrlOrThrow` (DNS resolution is modelled as an oracle
  `String → Option String`);
* `src/security/http/security-axios.adapter.ts` — the redirect-following
  secure transport, modelled as a trace-producing function whose underlying
  HTTP transport, and WHATWG relative-URL resolution, are oracles.

JavaScript strings are modelled as `List Char`; JavaScript numbers appearing
in the code are integers in every reachable situation we reason about, and
are modelled as `Nat`/`Int` with explicit `% 2^32` where the code relies on
`>>>`, `&`, `^` 32-bit semantics.  `NaN` (from `parseInt`/`Number` failures)
and `undefined` (out-of-range indexing, absent capture groups) are modelled
with `Option`; both coerce to `0` under JS `ToInt32`/`ToUint32`, which is
applied exactly where the code applies an arithmetic/bitwise operator.

The model of `Number(s)` covers strings without whitespace, fractional part,
or exponent (optionally signed digit strings, the empty string giving `0`);
the model of `parseInt(s, r)` covers strings without leading whitespace or
sign (longest valid-digit prefix, empty prefix giving `NaN`) and computes
the prefix value exactly, which matches the double `parseInt` returns only
for values below `2^53`.  Every property below that quantifies over input
strings either carries an explicit hypothesis confining the inputs to this
exactly-modelled fragment, or (for the URL/adapter layers) concerns inputs
— dotted quads, `net.isIP`-valid literals, CIDR entries of the shipped
rules — that lie within it.
-/

namespace UrlFetcher

/-! ## JS string and number primitives -/

/-- ASCII decimal digit, as in the regex `\d` (code points 48–57). -/
def isDigitC (c : Char) : Bool := 48 ≤ c.toNat && c.toNat ≤ 57

/-- ASCII hexadecimal digit (as accepted by `parseInt(_, 16)`). -/
def isHexC (c : Char) : Bool :=
  isDigitC c || (97 ≤ c.toNat && c.toNat ≤ 102) || (65 ≤ c.toNat && c.toNat ≤ 70)

/-- ASCII octal digit (as accepted by `parseInt(_, 8)`). -/
def isOctC (c : Char) : Bool := 48 ≤ c.toNat && c.toNat ≤ 55

/-- Value of a hexadecimal digit. -/
def hexDigitVal (c : Char) : Nat :=
  if 97 ≤ c.toNat then c.toNat - 87
  else if 65 ≤ c.toNat then c.toNat - 55
  else c.toNat - 48

/-- `s.startsWith(pre)`. -/
def startsWithC (pre l : List Char) : Bool := l.take pre.length = pre

/-- Decimal value of a digit string (digits assumed checked by the caller). -/
def decVal (l : List Char) : Nat :=
  l.foldl (fun a c => a * 10 + (c.toNat - '0'.toNat)) 0

/-- Hexadecimal value of a digit string. -/
def hexVal (l : List Char) : Nat := l.foldl (fun a c => a * 16 + hexDigitVal c) 0

/-- Octal value of a digit string. -/
def octVal (l : List Char) : Nat :=
  l.foldl (fun a c => a * 8 + (c.toNat - '0'.toNat)) 0

/-- Model of JS `Number(s)` on the fragment described in the header:
`""` is `0`, an optionally signed all-digit string is its decimal value,
anything else is `NaN` (`none`).  The real `Number` additionally accepts
whitespace, fractional and exponent forms and `0x`/`0o`/`0b` literals;
properties quantifying over inputs are scoped to strings (digits and dots)
on which this model provably agrees with `Number`. -/
def jsNumber (l : List Char) : Option Int :=
  if l = [] then some 0
  else if l.headD ' ' = '-' then
    if l.tail ≠ [] && l.tail.all isDigitC then some (-(decVal l.tail : Int)) else none
  else if l.headD ' ' = '+' then
    if l.tail ≠ [] && l.tail.all isDigitC then some (decVal l.tail : Int) else none
  else if l.all isDigitC then some (decVal l : Int) else none

/-- Model of JS `parseInt(s, 16)`: strips an optional `0x`/`0X`, then takes
the longest hex-digit prefix; no digits means `NaN` (`none`).  The value is
computed exactly, whereas `parseInt` returns a double and rounds above
`2^53`; properties quantifying over inputs carry a `< 2^53` bound on this
value. -/
def jsParseInt16 (l : List Char) : Option Nat :=
  let body :=
    if startsWithC ['0', 'x'] l || startsWithC ['0', 'X'] l then l.drop 2 else l
  let ds := body.takeWhile isHexC
  if ds = [] then none else some (hexVal ds)

/-- Model of JS `parseInt(s, 8)`: longest octal-digit prefix; no digits
means `NaN` (`none`).  Exact like `jsParseInt16`, so properties quantifying
over inputs carry a `< 2^53` bound on this value. -/
def jsParseInt8 (l : List Char) : Option Nat :=
  let ds := l.takeWhile isOctC
  if ds = [] then none else some (octVal ds)

/-- JS `ToUint32` applied to a (non-negative or `NaN`) number. -/
def toUint32 (o : Option Nat) : Nat := o.getD 0 % 4294967296

/-- JS `ToUint32` of a possibly negative integer. -/
def intToUint32 (i : Int) : Nat := (i % (4294967296 : Int)).toNat

/-- Digit accumulator for `natToDec`; the fuel argument only drives the
structural recursion and is always sufficient (`natToDec_unfold`). -/
def natToDecAux : Nat → Nat → List Char → List Char
  | 0, n, acc => Char.ofNat (48 + n) :: acc
  | fuel + 1, n, acc =>
    if n < 10 then Char.ofNat (48 + n) :: acc
    else natToDecAux fuel (n / 10) (Char.ofNat (48 + n % 10) :: acc)

/-- Decimal rendering of a natural number, as JS stringifies a
non-negative integer. -/
def natToDec (n : Nat) : List Char := natToDecAux n n []

/-- `String.prototype.split(c)` on a single-character separator. -/
def splitOnC (c : Char) : List Char → List (List Char)
  | [] => [[]]
  | x :: xs =>
    if x = c then [] :: splitOnC c xs
    else
      match splitOnC c xs with
      | [] => [[x]]
      | h :: t => (x :: h) :: t

/-- Join a list of chunks with a single-character separator
(`Array.prototype.join`). -/
def joinWithC (c : Char) : List (List Char) → List Char
  | [] => []
  | [x] => x
  | x :: xs => x ++ c :: joinWithC c xs

/-! ## `normalize-ip.utils.ts` -/

/-- `[(n >>> 24) & 255, (n >>> 16) & 255, (n >>> 8) & 255, n & 255].join('.')`
for an already `ToUint32`-reduced `n`. -/
def dotted32 (n : Nat) : List Char :=
  joinWithC '.'
    [natToDec (n / 16777216 % 256), natToDec (n / 65536 % 256),
     natToDec (n / 256 % 256), natToDec (n % 256)]

/-- One octet test of the dotted branch of `normalizeIPv4`:
`Number(p)` succeeds and `0 ≤ n ≤ 255`. -/
def octetOk (p : List Char) : Bool :=
  match jsNumber p with
  | some n => decide (0 ≤ n) && decide (n ≤ 255)
  | none => false

/-- The JS number printed for an octet that passed `octetOk`. -/
def octetOut (p : List Char) : List Char :=
  natToDec ((jsNumber p).getD 0).toNat

/-- Embedding of `normalizeIPv4` (src/common/normalize-ip.utils.ts).
Branches in source order: all-digit decimal in `(0, 0xFFFFFFFF)`
(exclusive!), `0x`-prefixed hex, any other string starting with `'0'`
(parsed by `parseInt(_, 8)`), then four dotted `Number`-parsed octets. -/
def normalizeIPv4C (l : List Char) : Option (List Char) :=
  if (l ≠ [] && l.all isDigitC) &&
      (decide (0 < decVal l) && decide (decVal l < 4294967295)) then
    some (dotted32 (decVal l))
  else if startsWithC ['0', 'x'] l then
    some (dotted32 (toUint32 (jsParseInt16 l)))
  else if startsWithC ['0'] l && l ≠ ['0'] then
    some (dotted32 (toUint32 (jsParseInt8 l)))
  else
    let parts := splitOnC '.' l
    if parts.length = 4 && parts.all octetOk then
      some (joinWithC '.' (parts.map octetOut))
    else none

/-- `normalizeIPv4` on Lean strings. -/
def normalizeIPv4 (s : String) : Option String :=
  (normalizeIPv4C s.data).map List.asString

/-- `split('.')` + `reduce((acc, o) => (acc << 8) + Number(o), 0)` applied to
a `normalizeIPv4` output (four octets `≤ 255`, so the 32-bit signed shifts
of the source agree with plain arithmetic mod `2^32`; equality of the two
signed results coincides with equality of the unsigned ones). -/
def ipStrVal (l : List Char) : Nat :=
  ((splitOnC '.' l).foldl (fun acc o => acc * 256 + ((jsNumber o).getD 0).toNat) 0)
    % 4294967296

/-- Mask computation of `isIpv4InCidr`:
`maskBits === 0 ? 0 : (~0 << (32 - maskBits)) >>> 0`, with `undefined` /
non-numeric bits giving `NaN`, whose shift count coerces to `0` (mask
`0xFFFFFFFF`).  JS shift counts are taken `ToUint32` then mod 32. -/
def cidrMask (bitsOpt : Option Int) : Nat :=
  match bitsOpt with
  | none => 4294967295
  | some m =>
    if m = 0 then 0
    else (4294967295 * 2 ^ (intToUint32 (32 - m) % 32)) % 4294967296

/-- Embedding of `isIpv4InCidr` (src/common/normalize-ip.utils.ts). -/
def isIpv4InCidrC (ip cidr : List Char) : Bool :=
  let parts := splitOnC '/' cidr
  let range := parts.headD []
  let bitsOpt : Option Int := (parts.get? 1).bind jsNumber
  match normalizeIPv4C ip, normalizeIPv4C range with
  | some ipN, some rangeN =>
    let mask := cidrMask bitsOpt
    decide ((ipStrVal ipN &&& mask) = (ipStrVal rangeN &&& mask))
  | _, _ => false

/-- `isIpv4InCidr` on Lean strings. -/
def isIpv4InCidr (ip cidr : String) : Bool := isIpv4InCidrC ip.data cidr.data

/-- Embedding of `isIPv6`: the literal contains a colon. -/
def isIPv6C (l : List Char) : Bool := l.any (fun c => c = ':')

/-- `isIPv6` on Lean strings. -/
def isIPv6 (s : String) : Bool := isIPv6C s.data

/-- One group of the `expand` helper of `isIPv6InCidr`:
`parseInt(p || '0', 16)` (empty string is falsy and becomes `'0'`).
`none` is `NaN`. -/
def groupVal (p : List Char) : Option Nat :=
  jsParseInt16 (if p = [] then ['0'] else p)

/-- `parts.indexOf('')`: index of the first empty chunk. -/
def idxOfEmpty : List (List Char) → Option Nat
  | [] => none
  | p :: t => if p = [] then some 0 else (idxOfEmpty t).map (· + 1)

/-- The `expand` helper of `isIPv6InCidr`: split on `':'`, replace the
first empty chunk by `8 - (parts.length - 1)` `'0'` chunks (a negative
count makes `Array(missing)` throw, caught by the surrounding `try`),
then `parseInt` each chunk.  `none` models the thrown `RangeError`. -/
def expandC (l : List Char) : Option (List (Option Nat)) :=
  let parts := splitOnC ':' l
  match idxOfEmpty parts with
  | none => some (parts.map groupVal)
  | some i =>
    let missing : Int := 8 - ((parts.length : Int) - 1)
    if missing < 0 then none
    else
      some ((parts.take i ++ List.replicate missing.toNat ['0'] ++
        parts.drop (i + 1)).map groupVal)

/-- Structural computation of `⌊log₂ n⌋` (`log2C_eq_log2` relates it to
`Nat.log2`); models `Math.floor(Math.log2(d))` on positive integers. -/
def log2Aux : Nat → Nat → Nat
  | 0, _ => 0
  | fuel + 1, n => if 2 ≤ n then log2Aux fuel (n / 2) + 1 else 0

/-- `⌊log₂ n⌋`, structurally. -/
def log2C (n : Nat) : Nat := log2Aux n n

/-- `ToInt32`-style coercion used at the `^` in the group-comparison loop:
`NaN` and `undefined` become `0`; values are reduced mod `2^32` (signedness
only matters through `Math.log2` of a negative number, handled in
`v6Loop`). -/
def u32 (o : Option Nat) : Nat := o.getD 0 % 4294967296

/-- The `for (let i = 0; i < 8; i++)` comparison loop of `isIPv6InCidr`,
run on the two expansions padded to exactly 8 entries (`xs[i]` past the
end is `undefined`, i.e. `none`).  Result `none` models a `NaN`
`matchedBits` (from `Math.log2` of a negative 32-bit `diff`), which makes
the final `>=` false. -/
def v6Loop : List (Option Nat) → List (Option Nat) → Int → Option Int
  | a :: as_, b :: bs, matched =>
    let d := u32 a ^^^ u32 b
    if d = 0 then v6Loop as_ bs (matched + 16)
    else if 2147483648 ≤ d then none
    else some (matched + (16 - (log2C d : Int) - 1))
  | _, _, matched => some matched

/-- Pad an expansion to the 8 entries the loop reads. -/
def padTo8 (l : List (Option Nat)) : List (Option Nat) :=
  (l ++ List.replicate 8 none).take 8

/-- Embedding of `isIPv6InCidr` (src/common/normalize-ip.utils.ts). -/
def isIPv6InCidrC (ip cidr : List Char) : Bool :=
  let parts := splitOnC '/' cidr
  let range := parts.headD []
  let bits : Option Int := (parts.get? 1).bind jsNumber
  match expandC ip, expandC range with
  | some ipParts, some rangeParts =>
    match bits, v6Loop (padTo8 ipParts) (padTo8 rangeParts) 0 with
    | some b, some matched => decide (b ≤ matched)
    | _, _ => false
  | _, _ => false

/-- `isIPv6InCidr` on Lean strings. -/
def isIPv6InCidr (ip cidr : String) : Bool := isIPv6InCidrC ip.data cidr.data

/-! ## Specification-side address vocabulary

Definitions in this block follow the wording of the specification (canonical
dotted quads, valid colon-hex IPv6 literals and their eight-group
expansions, bit-prefix agreement); they are used on the right-hand side of
the claims and are independent of the code path embedded above. -/

/-- The canonical dotted rendering of the quad `(o1, o2, o3, o4)`. -/
def dottedQuad (o1 o2 o3 o4 : Nat) : List Char :=
  natToDec o1 ++ '.' :: natToDec o2 ++ '.' :: natToDec o3 ++ '.' :: natToDec o4

/-- The 32-bit value of the quad `(o1, o2, o3, o4)`. -/
def quadVal (o1 o2 o3 o4 : Nat) : Nat :=
  o1 * 16777216 + o2 * 65536 + o3 * 256 + o4

/-- A valid 16-bit group of an IPv6 literal: one to four hex digits. -/
def isHexGroup (p : List Char) : Bool :=
  p ≠ [] && decide (p.length ≤ 4) && p.all isHexC

/-- First position of an adjacent `"::"`, splitting the literal there. -/
def splitDC : List Char → Option (List Char × List Char)
  | [] => none
  | [_] => none
  | c1 :: c2 :: rest =>
    if c1 = ':' ∧ c2 = ':' then some ([], rest)
    else (splitDC (c2 :: rest)).map (fun p => (c1 :: p.1, p.2))

/-- The colon-separated groups of one side of a `"::"` (empty side allowed). -/
def sideGroups (x : List Char) : Option (List Nat) :=
  if x = [] then some []
  else
    let ps := splitOnC ':' x
    if ps.all isHexGroup then some (ps.map hexVal) else none

/-- Specification-side parser of an IPv6 literal in colon-hex form: either
eight groups of one to four hex digits, or at most seven such groups with a
single `"::"` standing for the missing zero groups.  Returns the full
eight-group expansion. -/
def parseIPv6 (l : List Char) : Option (List Nat) :=
  match splitDC l with
  | none =>
    let ps := splitOnC ':' l
    if ps.length = 8 && ps.all isHexGroup then some (ps.map hexVal) else none
  | some (bef, aft) =>
    match sideGroups bef, sideGroups aft with
    | some bs, some as_ =>
      if bs.length + as_.length ≤ 7 then
        some (bs ++ List.replicate (8 - bs.length - as_.length) 0 ++ as_)
      else none
    | _, _ => none

/-- Bit `i` (most significant first) of the 128-bit address given by eight
16-bit groups. -/
def bit128 (gs : List Nat) (i : Nat) : Bool :=
  (gs.getD (i / 16) 0).testBit (15 - i % 16)

/-- The leading `m` bits of two expanded addresses agree. -/
def prefixAgree (m : Nat) (gs hs : List Nat) : Prop :=
  ∀ i, i < m → bit128 gs i = bit128 hs i

instance (m : Nat) (gs hs : List Nat) : Decidable (prefixAgree m gs hs) :=
  inferInstanceAs (Decidable (∀ i, i < m → bit128 gs i = bit128 hs i))

/-! ## Shipped security rules (`rules.provider.ts`, `rules.service.ts`) -/

/-- `SsrRulesConfig` of src/security/rules/rules.service.ts. -/
structure SsrRulesConfig where
  allowedHosts : List String
  blockedIpRanges : List String
  maxRedirects : Nat
  allowedProtocols : List String
  maxResponseSizeBytes : Nat
  validateRedirectChain : Bool
deriving Repr, DecidableEq

/-- `SecurityRules` of src/security/rules/rules.service.ts. -/
structure SecurityRules where
  ssrf : SsrRulesConfig
deriving Repr, DecidableEq

/-- The shipped `securityRulesConfig` of src/security/rules/rules.provider.ts. -/
def securityRulesConfig : SecurityRules :=
  { ssrf :=
    { allowedHosts := ["*"]
      blockedIpRanges :=
        ["127.0.0.1/8", "10.0.0.0/8", "172.16.0.0/12", "192.168.0.0/16",
         "169.254.0.0/16", "224.0.0.0/4", "::1/128", "fe80::/10", "fc00::/7"]
      maxRedirects := 5
      validateRedirectChain := true
      allowedProtocols := ["http:", "https:"]
      maxResponseSizeBytes := 5242880 } }

/-! ## `ssrf-policy.service.ts` -/

/-- ASCII lowercase of a string (`toLocaleLowerCase` on the inputs at hand). -/
def lowerC (l : List Char) : List Char := l.map Char.toLower

/-- Embedding of `SsrfPolicyService.isPrivateIp`: iterate the configured
ranges, single-literal entries compared case-insensitively (IPv6) or by
`normalizeIPv4` (IPv4), CIDR entries via the matcher of the address's
family; first match wins. -/
def isPrivateIp (ranges : List String) (ip : String) : Bool :=
  let isV6 := isIPv6 ip
  ranges.any fun range =>
    if ¬ (range.data.contains '/') then
      if isV6 then lowerC ip.data = lowerC range.data
      else
        match normalizeIPv4C ip.data, normalizeIPv4C range.data with
        | some a, some b => a = b
        | _, _ => false
    else
      if isV6 then isIPv6InCidrC ip.data range.data
      else isIpv4InCidrC ip.data range.data

/-- Strict IPv4 literal as accepted by `net.isIP` (`uv_inet_pton`): four
decimal octets `≤ 255`, no leading zeros. -/
def isIPv4Strict (l : List Char) : Bool :=
  let ps := splitOnC '.' l
  ps.length = 4 && ps.all fun p =>
    p ≠ [] && p.all isDigitC && (p.headD ' ' = '0' → p = ['0']) &&
      decide (decVal p ≤ 255)

/-- Model of node's `net.isIP`: `4` for a strict dotted quad, `6` for a
valid colon-hex IPv6 literal, else `0`.  (Bracketed hostnames such as
`"[::1]"` contain no valid literal and yield `0`, as in node.) -/
def netIsIP (s : String) : Nat :=
  if isIPv4Strict s.data then 4
  else if (parseIPv6 s.data).isSome then 6
  else 0

/-- Scheme characters of a URL (`a-z A-Z 0-9 + - .`), as in WHATWG. -/
def isSchemeC (c : Char) : Bool :=
  c.isAlpha || c.isDigit || c = '+' || c = '-' || c = '.'

/-- Host part of an authority: a bracketed IPv6 reference kept with its
brackets (as the WHATWG `hostname` getter serializes it), otherwise
everything before an optional `:port`.  Lowercased as WHATWG does. -/
def hostOfAuthority (auth : List Char) : List Char :=
  let hostport := (splitOnC '@' auth).getLastD auth
  match hostport with
  | '[' :: _ => lowerC (hostport.takeWhile (· ≠ ']') ++ [']'])
  | _ => lowerC (hostport.takeWhile (· ≠ ':'))

/-- Parsed URL fragment used by the policy engine: the scheme (with the
trailing `':'`, as the WHATWG `protocol` getter) and the hostname. -/
structure UrlParts where
  protocol : String
  hostname : String
deriving Repr, DecidableEq

/-- Model of `new URL(s)` restricted to what the engine reads, on the
fragment of URL syntax exercised here: `scheme://authority...` yields the
(nonempty, already canonical) hostname; `scheme:opaque` yields hostname
`""`; anything without a scheme fails.  WHATWG host canonicalization
beyond lowercasing (numeric IPv4 forms, percent-decoding) is outside the
modelled fragment; every host in the properties below is already
canonical. -/
def parseURL (s : String) : Option UrlParts :=
  let l := s.data
  let scheme := l.takeWhile isSchemeC
  let rest := l.drop scheme.length
  if scheme = [] || !(scheme.headD ' ').isAlpha then none
  else
    match rest with
    | ':' :: r =>
      match r with
      | '/' :: '/' :: r2 =>
        let auth := r2.takeWhile fun c => c ≠ '/' && c ≠ '?' && c ≠ '#'
        let host := hostOfAuthority auth
        if host = [] then none
        else some ⟨(lowerC scheme ++ [':']).asString, host.asString⟩
      | _ => some ⟨(lowerC scheme ++ [':']).asString, ""⟩
    | _ => none

/-- Verdict of one validation call.  `validateUrlOrThrow` communicates
rejections as thrown `ForbiddenException`s; the constructors carry the
data interpolated into the exception messages. -/
inductive RejectReason where
  | invalidUrl (url : String)
  | hostNotAllowed (host : String)
  | dnsFailure (host : String)
  | privateIp (address host : String)
deriving Repr, DecidableEq

/-- Result of `validateUrlOrThrow`: normal return or thrown rejection. -/
inductive Verdict where
  | accepted
  | rejected (r : RejectReason)
deriving Repr, DecidableEq

/-- Embedding of `SsrfPolicyService.validateUrlOrThrow`.  DNS resolution
(`dns.lookup`) is the oracle `dns`; `none` is a lookup failure, `some a`
the first resolved address.  Note the source has no scheme check: the
configured `allowedProtocols` are never consulted. -/
def validateUrl (rules : SsrRulesConfig) (dns : String → Option String)
    (urlStr : String) : Verdict :=
  match parseURL urlStr with
  | none => .rejected (.invalidUrl urlStr)
  | some parsed =>
    let host := parsed.hostname
    if ¬ (rules.allowedHosts.contains "*") ∧ ¬ (rules.allowedHosts.contains host) then
      .rejected (.hostNotAllowed host)
    else
      match (if netIsIP host ≠ 0 then some host else dns host) with
      | none => .rejected (.dnsFailure host)
      | some address =>
        if isPrivateIp rules.blockedIpRanges address then
          .rejected (.privateIp address host)
        else .accepted

/-! ## `security-axios.adapter.ts`

The adapter is modelled as a trace-producing function.  Oracles:

* `dns` — DNS resolution, as for `validateUrl`;
* `resolve loc base` — `new URL(loc, base).toString()` (WHATWG relative
  resolution, an external platform primitive);
* `script` — the underlying `httpAdapter`, responding to the `n`-th
  transaction of this fetch.  The adapter sends each transaction with
  `maxRedirects: 0` and an always-true `validateStatus`, so only the
  status and `location` header of each response matter.

The trace records, in order, every `validateUrlOrThrow` call with its
verdict and every underlying transaction with the request URL and method
it was issued with and the status it returned. -/

/-- The caller-visible request options read by the adapter. -/
structure ReqConfig where
  url : String := ""
  baseURL : Option String := none
  method : Option String := none
  maxRedirects : Option Nat := none
  validateStatus : Option (Nat → Bool) := none

/-- An underlying transport response: status and optional (lowercased)
`location` header. -/
structure HttpResponse where
  status : Nat
  location : Option String := none
deriving Repr, DecidableEq

/-- One observable step of a fetch. -/
inductive FetchEvent where
  | validate (url : String) (verdict : Verdict)
  | call (url : String) (method : Option String) (status : Nat)
deriving Repr, DecidableEq

/-- Outcome of a fetch: a returned response, a propagated SSRF rejection,
the max-redirects error, or a `validateStatus` failure. -/
inductive FetchOutcome where
  | ok (r : HttpResponse)
  | ssrfError (r : RejectReason)
  | maxRedirectsError (limit : Nat)
  | statusError (status : Nat)
deriving Repr, DecidableEq

/-- `REDIRECT_CODES.includes(status) && response.headers.location` —
the redirect test of the loop (an empty `location` header is falsy). -/
def isRedirectResp (r : HttpResponse) : Bool :=
  (r.status = 301 || r.status = 302 || r.status = 303 ||
   r.status = 307 || r.status = 308) &&
  (match r.location with | some l => l ≠ "" | none => false)

/-- The `while (true)` loop of `securityAxiosAdapter`: issue the
transaction, and on a redirect bump the hop counter, fail past the limit,
resolve and re-validate the target, rewrite the method on 303, and
continue.  The loop state keeps `remaining = maxRedirects - redirectCount`
(so the source's test `++redirectCount > maxRedirects` is exactly
`remaining = 0`), which bounds the recursion structurally — this is the
termination argument for the source's `while (true)`. -/
def secLoop (rules : SsrRulesConfig) (dns : String → Option String)
    (resolve : String → String → String) (script : Nat → HttpResponse)
    (origVS : Option (Nat → Bool)) (maxR : Nat) :
    (remaining : Nat) → (callIdx : Nat) → (url : String) →
    (method : Option String) → List FetchEvent × FetchOutcome
  | 0, callIdx, url, method =>
    let resp := script callIdx
    let callEv := FetchEvent.call url method resp.status
    if isRedirectResp resp then ([callEv], .maxRedirectsError maxR)
    else
      match origVS with
      | some f =>
        if f resp.status then ([callEv], .ok resp)
        else ([callEv], .statusError resp.status)
      | none => ([callEv], .ok resp)
  | r + 1, callIdx, url, method =>
    let resp := script callIdx
    let callEv := FetchEvent.call url method resp.status
    if isRedirectResp resp then
      let target := resolve (resp.location.getD "") url
      match validateUrl rules dns target with
      | .rejected rr => ([callEv, .validate target (.rejected rr)], .ssrfError rr)
      | .accepted =>
        let nextMethod := if resp.status = 303 then some "GET" else method
        let rec_ := secLoop rules dns resolve script origVS maxR
          r (callIdx + 1) target nextMethod
        (callEv :: .validate target .accepted :: rec_.1, rec_.2)
    else
      match origVS with
      | some f =>
        if f resp.status then ([callEv], .ok resp)
        else ([callEv], .statusError resp.status)
      | none => ([callEv], .ok resp)

/-- The effective initial URL of a fetch
(`config.baseURL ? new URL(config.url, config.baseURL).toString() : config.url`). -/
def initialUrl (resolve : String → String → String) (cfg : ReqConfig) : String :=
  match cfg.baseURL with
  | some b => resolve cfg.url b
  | none => cfg.url

/-- Embedding of `createSecurityAxiosAdapter`'s returned adapter: read the
redirect limit (per-request override or configured default), compute the
effective initial URL (an absent/empty one is delegated to the raw
transport untouched), validate it, then run the redirect loop. -/
def adapterRun (rules : SecurityRules) (dns : String → Option String)
    (resolve : String → String → String) (script : Nat → HttpResponse)
    (cfg : ReqConfig) : List FetchEvent × FetchOutcome :=
  let maxR := cfg.maxRedirects.getD rules.ssrf.maxRedirects
  let currentUrl := initialUrl resolve cfg
  if currentUrl = "" then
    ([.call currentUrl cfg.method (script 0).status], .ok (script 0))
  else
    match validateUrl rules.ssrf dns currentUrl with
    | .rejected r => ([.validate currentUrl (.rejected r)], .ssrfError r)
    | .accepted =>
      let res := secLoop rules.ssrf dns resolve script cfg.validateStatus maxR
        maxR 0 currentUrl cfg.method
      (.validate currentUrl .accepted :: res.1, res.2)

/-- The transaction events of a trace. -/
def callsOf (evs : List FetchEvent) : List (String × Option String × Nat) :=
  evs.filterMap fun e =>
    match e with
    | .call u m s => some (u, m, s)
    | _ => none

/-- The specification's CIDR mask: the 32-bit mask whose top `maskBits`
bits are set, the all-zero mask for `maskBits = 0`. -/
def specMask (m : Nat) : Nat := if m = 0 then 0 else 4294967296 - 2 ^ (32 - m)

/-- The numeric value of one dotted segment (the JS number `Number(p)`
prints back). -/
def octetVal (p : List Char) : Nat := ((jsNumber p).getD 0).toNat

/-- Reference canonicalization of the amended claim C4, stated by cases on
the input's shape rather than by the code's control flow:

1. a nonempty all-digit string whose decimal value `n` lies in the open
   interval `(0, 2^32 − 1)` canonicalizes to the dotted form of `n`;
2. otherwise a string starting with `0x` canonicalizes to the dotted form
   of its longest hex-digit prefix value (`NaN` coerced to `0`) reduced
   mod `2^32`;
3. otherwise a string starting with `0` (other than `"0"` itself, dotted
   or not) canonicalizes to the dotted form of its longest octal-digit
   prefix value reduced mod `2^32`;
4. otherwise a string of exactly four dot-separated segments, each an
   (optionally signed or empty) decimal numeral with value in `[0, 255]`,
   canonicalizes to the segment values re-rendered in decimal;
5. every other string is invalid. -/
def normalizeIPv4Spec (l : List Char) : Option (List Char) :=
  if l ≠ [] ∧ l.all isDigitC = true ∧ 0 < decVal l ∧ decVal l < 4294967295 then
    some (dottedQuad (decVal l / 16777216 % 256) (decVal l / 65536 % 256)
      (decVal l / 256 % 256) (decVal l % 256))
  else if startsWithC ['0', 'x'] l = true then
    let v := toUint32 (jsParseInt16 l)
    some (dottedQuad (v / 16777216 % 256) (v / 65536 % 256) (v / 256 % 256) (v % 256))
  else if startsWithC ['0'] l = true ∧ l ≠ ['0'] then
    let v := toUint32 (jsParseInt8 l)
    some (dottedQuad (v / 16777216 % 256) (v / 65536 % 256) (v / 256 % 256) (v % 256))
  else
    match splitOnC '.' l with
    | [p1, p2, p3, p4] =>
      if octetOk p1 ∧ octetOk p2 ∧ octetOk p3 ∧ octetOk p4 then
        some (dottedQuad (octetVal p1) (octetVal p2) (octetVal p3) (octetVal p4))
      else none
    | _ => none

/-- Common bit-prefix length of two group lists (16 bits per equal group,
position of the highest differing bit inside the first unequal group);
`v6Loop` computes exactly this on valid expansions (`v6Loop_cpb`). -/
def cpb : List Nat → List Nat → Nat
  | a :: as_, b :: bs => if a = b then 16 + cpb as_ bs else 15 - log2C (a ^^^ b)
  | _, _ => 0

/-- The five shipped IPv4 denylist ranges, octet-wise: `127.0.0.0/8`,
`10.0.0.0/8`, `172.16.0.0/12`, `192.168.0.0/16`, `169.254.0.0/16`,
`224.0.0.0/4`. -/
def specBlockedV4 (o1 o2 : Nat) : Bool :=
  o1 = 127 || o1 = 10 || (o1 = 172 && (16 ≤ o2 && o2 ≤ 31)) ||
    (o1 = 192 && o2 = 168) || (o1 = 169 && o2 = 254) || (224 ≤ o1 && o1 ≤ 239)

/-- The three shipped IPv6 denylist ranges on an eight-group expansion:
`::1/128` (the exact loopback address), `fe80::/10` (leading ten bits
`1111111010`, i.e. first group shifted right by 6 equals `0x3FA`),
`fc00::/7` (leading seven bits `1111110`, i.e. first group shifted right
by 9 equals `0x7E`). -/
def specBlockedV6 (gs : List Nat) : Bool :=
  gs = [0, 0, 0, 0, 0, 0, 0, 1] || gs.headD 0 / 64 = 1018 || gs.headD 0 / 512 = 126

/-- The URLs of a redirect chain: hop `0` is the initial URL, hop `k + 1`
resolves the `k`-th response's `location` header against hop `k`. -/
def chainUrl (resolve : String → String → String) (script : Nat → HttpResponse)
    (u0 : String) : Nat → String
  | 0 => u0
  | k + 1 => resolve ((script k).location.getD "") (chainUrl resolve script u0 k)

/-! ## Concrete oracles used by the claim witnesses -/

/-- A DNS oracle: host `a` resolves publicly, host `evil` to loopback,
everything else fails. -/
def dnsW : String → Option String := fun h =>
  if h = "a" then some "8.8.8.8"
  else if h = "evil" then some "127.0.0.1" else none

/-- A resolution oracle taking every `Location` header as absolute. -/
def resolveW : String → String → String := fun loc _ => loc

/-- A transport forever answering `301` towards `http://evil`. -/
def scriptW : Nat → HttpResponse := fun _ => ⟨301, some "http://evil"⟩

/-- A transport forever answering `301` back to `http://a`. -/
def scriptR : Nat → HttpResponse := fun _ => ⟨301, some "http://a"⟩

/-- A transport answering `303` once, then `200`. -/
def script303 : Nat → HttpResponse := fun n =>
  if n = 0 then ⟨303, some "http://a"⟩ else ⟨200, none⟩

/-- The request configuration of the witnesses: a `POST` to `http://a`. -/
def cfgW : ReqConfig := { url := "http://a", method := some "POST" }

/-! ## Lemmas: decimal rendering and parsing -/

theorem digitChar_toNat : ∀ d : Nat, d < 10 → (Char.ofNat (48 + d)).toNat = 48 + d := by
  decide

theorem digitChar_isDigit : ∀ d : Nat, d < 10 → isDigitC (Char.ofNat (48 + d)) = true := by
  decide

theorem isDigit_val {c : Char} (h : isDigitC c = true) :
    48 ≤ c.toNat ∧ c.toNat ≤ 57 := by
  simp only [isDigitC, Bool.and_eq_true, decide_eq_true_eq] at h
  exact h

theorem natToDecAux_small (fuel n : Nat) (acc : List Char) (h : n < 10) :
    natToDecAux fuel n acc = Char.ofNat (48 + n) :: acc := by
  cases fuel with
  | zero => rfl
  | succ f => simp [natToDecAux, h]

theorem natToDecAux_adequate (n : Nat) :
    ∀ fuel acc, n ≤ fuel → natToDecAux fuel n acc = natToDecAux n n [] ++ acc := by
  induction n using Nat.strong_induction_on with
  | _ n ih =>
    intro fuel acc hf
    by_cases h10 : n < 10
    · rw [natToDecAux_small fuel n acc h10, natToDecAux_small n n [] h10]
      rfl
    · cases fuel with
      | zero => omega
      | succ f =>
        have hdiv : n / 10 < n := Nat.div_lt_self (by omega) (by omega)
        simp only [natToDecAux, if_neg h10]
        rw [ih (n / 10) hdiv f _ (by omega)]
        cases n with
        | zero => omega
        | succ m =>
          simp only [natToDecAux, if_neg h10]
          rw [ih ((m + 1) / 10) hdiv m _ (by omega)]
          simp

theorem natToDec_unfold (n : Nat) : natToDec n =
    if n < 10 then [Char.ofNat (48 + n)]
    else natToDec (n / 10) ++ [Char.ofNat (48 + n % 10)] := by
  unfold natToDec
  by_cases h10 : n < 10
  · rw [natToDecAux_small n n [] h10, if_pos h10]
  · rw [if_neg h10]
    cases n with
    | zero => omega
    | succ m =>
      simp only [natToDecAux, if_neg h10]
      rw [natToDecAux_adequate ((m + 1) / 10) m _
        (by have := Nat.div_lt_self (show 0 < m + 1 by omega) (show 1 < 10 by omega); omega)]

theorem natToDec_ne_nil (n : Nat) : natToDec n ≠ [] := by
  rw [natToDec_unfold]
  split <;> simp

theorem natToDec_digits (n : Nat) : (natToDec n).all isDigitC = true := by
  induction n using Nat.strong_induction_on with
  | _ n ih =>
    rw [natToDec_unfold]
    split
    · rename_i h
      simp [digitChar_isDigit n h]
    · rename_i h
      have hd := ih (n / 10) (Nat.div_lt_self (by omega) (by omega))
      simp only [List.all_append, hd, Bool.true_and]
      simp [digitChar_isDigit (n % 10) (Nat.mod_lt _ (by omega))]

theorem decVal_append_singleton (l : List Char) (c : Char) :
    decVal (l ++ [c]) = decVal l * 10 + (c.toNat - 48) := by
  simp [decVal, List.foldl_append]

theorem decVal_natToDec (n : Nat) : decVal (natToDec n) = n := by
  induction n using Nat.strong_induction_on with
  | _ n ih =>
    rw [natToDec_unfold]
    split
    · rename_i h
      simp [decVal, digitChar_toNat n h]
    · rename_i h
      rw [decVal_append_singleton, ih (n / 10) (Nat.div_lt_self (by omega) (by omega)),
        digitChar_toNat (n % 10) (Nat.mod_lt _ (by omega))]
      omega

theorem headD_append {l l' : List Char} (d : Char) (h : l ≠ []) :
    (l ++ l').headD d = l.headD d := by
  cases l with
  | nil => exact absurd rfl h
  | cons x xs => rfl

theorem natToDec_head_pos (n : Nat) (h : n ≠ 0) : (natToDec n).headD ' ' ≠ '0' := by
  induction n using Nat.strong_induction_on with
  | _ n ih =>
    rw [natToDec_unfold]
    split
    · rename_i h10
      simp only [List.headD]
      intro hc
      have ht := digitChar_toNat n h10
      rw [hc] at ht
      have h48 : ('0').toNat = 48 := rfl
      rw [h48] at ht
      omega
    · rename_i h10
      rw [headD_append ' ' (natToDec_ne_nil _)]
      exact ih (n / 10) (Nat.div_lt_self (by omega) (by omega)) (by omega)

theorem natToDec_zero : natToDec 0 = ['0'] := by
  rw [natToDec_unfold]
  decide

/-! ## Lemmas: `split` and `join` -/

theorem splitOnC_ne_nil (c : Char) (l : List Char) : splitOnC c l ≠ [] := by
  induction l with
  | nil => simp [splitOnC]
  | cons x xs ih =>
    simp only [splitOnC]
    split
    · simp
    · cases hs : splitOnC c xs with
      | nil => exact absurd hs ih
      | cons h t => simp

theorem splitOnC_append (c : Char) (u v : List Char) :
    splitOnC c (u ++ c :: v) = splitOnC c u ++ splitOnC c v := by
  induction u with
  | nil => simp [splitOnC]
  | cons x xs ih =>
    rw [List.cons_append]
    simp only [splitOnC, List.append_eq]
    split
    · rw [ih]
      cases hs : splitOnC c xs <;> simp [splitOnC]
    · rw [ih]
      cases hs : splitOnC c xs with
      | nil => exact absurd hs (splitOnC_ne_nil c xs)
      | cons h t => simp

theorem splitOnC_no_sep (c : Char) (l : List Char) (h : ∀ x ∈ l, x ≠ c) :
    splitOnC c l = [l] := by
  induction l with
  | nil => rfl
  | cons x xs ih =>
    simp only [splitOnC]
    rw [if_neg (h x (by simp))]
    rw [ih (fun y hy => h y (by simp [hy]))]

theorem joinWithC_cons (c : Char) (x : List Char) (xs : List (List Char))
    (h : xs ≠ []) : joinWithC c (x :: xs) = x ++ c :: joinWithC c xs := by
  cases xs with
  | nil => exact absurd rfl h
  | cons y ys => rfl

theorem splitOnC_joinWithC (c : Char) (gs : List (List Char)) (hne : gs ≠ [])
    (h : ∀ g ∈ gs, ∀ x ∈ g, x ≠ c) : splitOnC c (joinWithC c gs) = gs := by
  induction gs with
  | nil => exact absurd rfl hne
  | cons g t ih =>
    cases t with
    | nil =>
      simp only [joinWithC]
      exact splitOnC_no_sep c g (h g (by simp))
    | cons g2 t2 =>
      rw [joinWithC_cons c g _ (by simp), splitOnC_append,
        splitOnC_no_sep c g (h g (by simp)),
        ih (by simp) (fun g' hg' x hx => h g' (by simp [hg']) x hx)]
      rfl

/-! ## Lemmas: JS number parsing on digit strings -/

theorem takeWhile_all {p : Char → Bool} {l : List Char} (h : l.all p = true) :
    l.takeWhile p = l := by
  induction l with
  | nil => rfl
  | cons x xs ih =>
    simp only [List.all_cons, Bool.and_eq_true] at h
    simp [List.takeWhile, h.1, ih h.2]

theorem jsNumber_digits (l : List Char) (h1 : l ≠ []) (h2 : l.all isDigitC = true) :
    jsNumber l = some ((decVal l : Int)) := by
  cases l with
  | nil => exact absurd rfl h1
  | cons x xs =>
    simp only [List.all_cons, Bool.and_eq_true] at h2
    have hx := isDigit_val h2.1
    unfold jsNumber
    rw [if_neg (by simp)]
    rw [if_neg (by
      simp only [List.headD]
      intro hc; rw [hc] at hx; simp at hx)]
    rw [if_neg (by
      simp only [List.headD]
      intro hc; rw [hc] at hx; simp at hx)]
    rw [if_pos (by simp [h2.1, h2.2])]

theorem jsNumber_natToDec (n : Nat) : jsNumber (natToDec n) = some ((n : Int)) := by
  rw [jsNumber_digits _ (natToDec_ne_nil n) (natToDec_digits n), decVal_natToDec]

theorem log2Aux_adequate (n : Nat) : ∀ fuel, n ≤ fuel → log2Aux fuel n = Nat.log2 n := by
  induction n using Nat.strong_induction_on with
  | _ n ih =>
    intro fuel hf
    rw [Nat.log2]
    by_cases h2 : 2 ≤ n
    · cases fuel with
      | zero => omega
      | succ f =>
        have hdiv : n / 2 < n := Nat.div_lt_self (by omega) (by omega)
        simp only [log2Aux, if_pos h2, ge_iff_le, if_pos h2]
        rw [ih (n / 2) hdiv f (by omega)]
    · cases fuel with
      | zero =>
        interval_cases n
        simp [log2Aux, h2]
      | succ f => simp [log2Aux, h2]

theorem log2C_eq_log2 (n : Nat) : log2C n = Nat.log2 n :=
  log2Aux_adequate n n (le_refl n)

/-! ## Lemmas: `normalizeIPv4` against the reference canonicalization -/

theorem dotted32_eq_quad (n : Nat) :
    dotted32 n = dottedQuad (n / 16777216 % 256) (n / 65536 % 256)
      (n / 256 % 256) (n % 256) := by
  simp [dotted32, dottedQuad, joinWithC]

theorem octetOut_eq (p : List Char) : octetOut p = natToDec (octetVal p) := rfl

theorem normalizeIPv4_refines (l : List Char) :
    normalizeIPv4C l = normalizeIPv4Spec l := by
  simp only [normalizeIPv4C, normalizeIPv4Spec]
  by_cases h1 : l ≠ [] ∧ l.all isDigitC = true ∧ 0 < decVal l ∧ decVal l < 4294967295
  · rw [if_pos ?gb, if_pos h1, dotted32_eq_quad]
    case gb => simp only [Bool.and_eq_true, decide_eq_true_eq]; tauto
  · rw [if_neg ?gb, if_neg h1]
    case gb =>
      simp only [Bool.and_eq_true, decide_eq_true_eq]
      tauto
    by_cases h2 : startsWithC ['0', 'x'] l = true
    · rw [if_pos h2, if_pos h2, dotted32_eq_quad]
    · rw [if_neg h2, if_neg h2]
      by_cases h3 : startsWithC ['0'] l = true ∧ l ≠ ['0']
      · rw [if_pos ?g3, if_pos h3, dotted32_eq_quad]
        case g3 => simp only [Bool.and_eq_true, decide_eq_true_eq]; tauto
      · rw [if_neg ?g3n, if_neg h3]
        case g3n => simp only [Bool.and_eq_true, decide_eq_true_eq]; tauto
        cases hp : splitOnC '.' l with
        | nil => simp
        | cons p1 t1 =>
          cases t1 with
          | nil => simp
          | cons p2 t2 =>
            cases t2 with
            | nil => simp
            | cons p3 t3 =>
              cases t3 with
              | nil => simp
              | cons p4 t4 =>
                cases t4 with
                | nil =>
                  dsimp only
                  by_cases ho : octetOk p1 = true ∧ octetOk p2 = true ∧
                      octetOk p3 = true ∧ octetOk p4 = true
                  · rw [if_pos ?g4, if_pos ho]
                    case g4 =>
                      simp only [List.all_cons, List.all_nil, Bool.and_eq_true,
                        decide_eq_true_eq]
                      exact ⟨rfl, ho.1, ho.2.1, ho.2.2.1, ho.2.2.2, trivial⟩
                    simp [joinWithC, octetOut_eq, dottedQuad]
                  · rw [if_neg ?g4n, if_neg ho]
                    case g4n =>
                      simp only [List.all_cons, List.all_nil, Bool.and_eq_true,
                        decide_eq_true_eq]
                      intro h
                      exact ho ⟨h.2.1, h.2.2.1, h.2.2.2.1, h.2.2.2.2.1⟩
                | cons p5 t5 =>
                  dsimp only
                  rw [if_neg ?g5]
                  case g5 => simp

theorem natToDec_mem_digit {n : Nat} {x : Char} (hx : x ∈ natToDec n) :
    isDigitC x = true := by
  have h := natToDec_digits n
  rw [List.all_eq_true] at h
  exact h x hx

theorem natToDec_mem_ne {n : Nat} {c : Char}
    (hc : ¬ (48 ≤ c.toNat ∧ c.toNat ≤ 57)) : ∀ x ∈ natToDec n, x ≠ c := by
  intro x hx he
  subst he
  exact hc (isDigit_val (natToDec_mem_digit hx))

theorem digits_mem_ne {l : List Char} {c : Char} (hl : l.all isDigitC = true)
    (hc : ¬ (48 ≤ c.toNat ∧ c.toNat ≤ 57)) : ∀ x ∈ l, x ≠ c := by
  intro x hx he
  rw [List.all_eq_true] at hl
  exact hc (he ▸ isDigit_val (hl x hx))

theorem dottedQuad_eq_join (o1 o2 o3 o4 : Nat) :
    dottedQuad o1 o2 o3 o4 =
      joinWithC '.' [natToDec o1, natToDec o2, natToDec o3, natToDec o4] := by
  simp [dottedQuad, joinWithC]

theorem splitOnC_dottedQuad (o1 o2 o3 o4 : Nat) :
    splitOnC '.' (dottedQuad o1 o2 o3 o4) =
      [natToDec o1, natToDec o2, natToDec o3, natToDec o4] := by
  rw [dottedQuad_eq_join]
  refine splitOnC_joinWithC '.' _ (by simp) ?_
  intro g hg
  simp only [List.mem_cons, List.mem_singleton, List.not_mem_nil, or_false] at hg
  rcases hg with rfl | rfl | rfl | rfl <;>
    exact natToDec_mem_ne (by decide)

theorem ipStrVal_dottedQuad (o1 o2 o3 o4 : Nat) (h1 : o1 ≤ 255) (h2 : o2 ≤ 255)
    (h3 : o3 ≤ 255) (h4 : o4 ≤ 255) :
    ipStrVal (dottedQuad o1 o2 o3 o4) = quadVal o1 o2 o3 o4 := by
  unfold ipStrVal
  rw [splitOnC_dottedQuad]
  simp only [List.foldl_cons, List.foldl_nil, jsNumber_natToDec, Option.getD_some,
    Int.toNat_natCast]
  unfold quadVal
  omega

theorem ipStrVal_dotted32 {v : Nat} (hv : v < 4294967296) :
    ipStrVal (dotted32 v) = v := by
  rw [dotted32_eq_quad, ipStrVal_dottedQuad _ _ _ _ (by omega) (by omega) (by omega)
    (by omega)]
  unfold quadVal
  omega

theorem octetOk_val {p : List Char} (h : octetOk p = true) : octetVal p ≤ 255 := by
  unfold octetOk at h
  unfold octetVal
  cases hj : jsNumber p with
  | none => rw [hj] at h; exact absurd h (by simp)
  | some n =>
    rw [hj] at h
    simp only [Bool.and_eq_true, decide_eq_true_eq] at h
    simp only [hj, Option.getD_some]
    omega

theorem joinWithC_octets (p1 p2 p3 p4 : List Char) :
    joinWithC '.' (List.map octetOut [p1, p2, p3, p4]) =
      dottedQuad (octetVal p1) (octetVal p2) (octetVal p3) (octetVal p4) := by
  simp [joinWithC, octetOut_eq, dottedQuad]

/-- Every `some` output of `normalizeIPv4` is the canonical dotted form of
a 32-bit value, and parsing it back recovers that value. -/
theorem normC_out {l t : List Char} (h : normalizeIPv4C l = some t) :
    ∃ v, v < 4294967296 ∧ t = dotted32 v ∧ ipStrVal t = v := by
  simp only [normalizeIPv4C] at h
  split_ifs at h with hg1 hg2 hg3 hg4
  · simp only [Option.some_inj] at h
    subst h
    simp only [Bool.and_eq_true, decide_eq_true_eq] at hg1
    exact ⟨decVal l, by omega, rfl, ipStrVal_dotted32 (by omega)⟩
  · simp only [Option.some_inj] at h
    subst h
    exact ⟨_, Nat.mod_lt _ (by omega), rfl, ipStrVal_dotted32 (Nat.mod_lt _ (by omega))⟩
  · simp only [Option.some_inj] at h
    subst h
    exact ⟨_, Nat.mod_lt _ (by omega), rfl, ipStrVal_dotted32 (Nat.mod_lt _ (by omega))⟩
  · simp only [Bool.and_eq_true, decide_eq_true_eq] at hg4
    obtain ⟨hlen, hall⟩ := hg4
    cases hp : splitOnC '.' l with
    | nil => rw [hp] at hlen; simp at hlen
    | cons p1 t1 =>
      cases t1 with
      | nil => rw [hp] at hlen; simp at hlen
      | cons p2 t2 =>
        cases t2 with
        | nil => rw [hp] at hlen; simp at hlen
        | cons p3 t3 =>
          cases t3 with
          | nil => rw [hp] at hlen; simp at hlen
          | cons p4 t4 =>
            cases t4 with
            | nil =>
              rw [hp] at h hall
              simp only [Option.some_inj] at h
              subst h
              simp only [List.all_cons, List.all_nil, Bool.and_eq_true] at hall
              obtain ⟨ho1, ho2, ho3, ho4, -⟩ := hall
              have b1 := octetOk_val ho1
              have b2 := octetOk_val ho2
              have b3 := octetOk_val ho3
              have b4 := octetOk_val ho4
              refine ⟨quadVal (octetVal p1) (octetVal p2) (octetVal p3) (octetVal p4),
                by unfold quadVal; omega, ?_, ?_⟩
              · rw [joinWithC_octets, dotted32_eq_quad]
                have e1 : quadVal (octetVal p1) (octetVal p2) (octetVal p3)
                    (octetVal p4) / 16777216 % 256 = octetVal p1 := by
                  unfold quadVal; omega
                have e2 : quadVal (octetVal p1) (octetVal p2) (octetVal p3)
                    (octetVal p4) / 65536 % 256 = octetVal p2 := by
                  unfold quadVal; omega
                have e3 : quadVal (octetVal p1) (octetVal p2) (octetVal p3)
                    (octetVal p4) / 256 % 256 = octetVal p3 := by
                  unfold quadVal; omega
                have e4 : quadVal (octetVal p1) (octetVal p2) (octetVal p3)
                    (octetVal p4) % 256 = octetVal p4 := by
                  unfold quadVal; omega
                rw [e1, e2, e3, e4]
              · rw [joinWithC_octets, ipStrVal_dottedQuad _ _ _ _ b1 b2 b3 b4]
            | cons p5 t5 =>
              rw [hp] at hlen
              simp at hlen

/-- For prefix lengths `1 ≤ m ≤ 32` the code's mask `(~0 << (32-m)) >>> 0`
is the specification's top-`m`-bits mask; `m = 0` gives the zero mask in
both. -/
theorem cidrMask_spec (m : Nat) (hm : m ≤ 32) :
    cidrMask (some ((m : Int))) = specMask m := by
  unfold cidrMask specMask
  dsimp only
  by_cases h0 : m = 0
  · subst h0; simp
  · rw [if_neg (show ¬ ((m : Int)) = 0 by exact_mod_cast h0), if_neg h0]
    have h1 : intToUint32 (32 - (m : Int)) = 32 - m := by
      unfold intToUint32
      omega
    rw [h1, Nat.mod_eq_of_lt (show 32 - m < 32 by omega)]
    have hkb : 32 - m ≤ 31 := by omega
    have hp2 : 2 ^ (32 - m) ≤ 2 ^ 31 := Nat.pow_le_pow_right (by omega) hkb
    have hp1 : 1 ≤ 2 ^ (32 - m) := Nat.one_le_two_pow
    have h31 : (2 : Nat) ^ 31 = 2147483648 := by norm_num
    omega

/-- Evaluation of `isIpv4InCidr` on a well-formed CIDR string: the
specification's mask comparison on the normalized values, `false` when
either side fails to normalize. -/
theorem isIpv4InCidr_eval (ip net bits : List Char) (m : Nat) (hm : m ≤ 32)
    (hnet : ∀ x ∈ net, x ≠ '/') (hb1 : bits ≠ [])
    (hb2 : bits.all isDigitC = true) (hbv : decVal bits = m) :
    isIpv4InCidrC ip (net ++ '/' :: bits) =
      match normalizeIPv4C ip, normalizeIPv4C net with
      | some a, some b =>
        decide (ipStrVal a &&& specMask m = ipStrVal b &&& specMask m)
      | _, _ => false := by
  have hsplit : splitOnC '/' (net ++ '/' :: bits) = [net, bits] := by
    rw [splitOnC_append, splitOnC_no_sep _ net hnet,
      splitOnC_no_sep _ bits (digits_mem_ne hb2 (by decide))]
    rfl
  simp only [isIpv4InCidrC, hsplit]
  have hbits : jsNumber bits = some ((m : Int)) := by
    rw [jsNumber_digits bits hb1 hb2, hbv]
  simp only [List.headD, List.get?, Option.some_bind, hbits, cidrMask_spec m hm]

/-! ## Claim C6 -/

/-- Claim C6.  For every CIDR string `net ++ "/" ++ bits` with a slash-free
network part and a decimal `bits` numeral denoting `m ≤ 32`,
`isIpv4InCidr` returns, when both the address and the network normalize
via `normalizeIPv4`, exactly the comparison `(a AND mask) = (net AND mask)`
with the specification's mask (`specMask m`: top `m` bits set, all-zero
for `m = 0`, no shift by 32 involved), and `false` when either side fails
to normalize.  In particular `172.32.0.0` is outside `172.16.0.0/12` and
`172.31.255.255` is inside. -/
theorem claim_C6 (ip net bits : List Char) (m : Nat) (hm : m ≤ 32)
    (hnet : ∀ x ∈ net, x ≠ '/') (hb1 : bits ≠ [])
    (hb2 : bits.all isDigitC = true) (hbv : decVal bits = m) :
    (isIpv4InCidrC ip (net ++ '/' :: bits) =
      match normalizeIPv4C ip, normalizeIPv4C net with
      | some a, some b =>
        decide (ipStrVal a &&& specMask m = ipStrVal b &&& specMask m)
      | _, _ => false) ∧
    isIpv4InCidr "172.32.0.0" "172.16.0.0/12" = false ∧
    isIpv4InCidr "172.31.255.255" "172.16.0.0/12" = true :=
  ⟨isIpv4InCidr_eval ip net bits m hm hnet hb1 hb2 hbv, by decide, by decide⟩

/-- Claim C6, witness: the theorem applied to `172.31.255.255` against
`172.16.0.0/12`. -/
theorem claim_C6_witness :
    isIpv4InCidrC "172.31.255.255".data ("172.16.0.0".data ++ '/' :: "12".data) =
      match normalizeIPv4C "172.31.255.255".data, normalizeIPv4C "172.16.0.0".data with
      | some a, some b =>
        decide (ipStrVal a &&& specMask 12 = ipStrVal b &&& specMask 12)
      | _, _ => false :=
  (claim_C6 "172.31.255.255".data "172.16.0.0".data "12".data 12 (by decide)
    (by decide) (by decide) (by decide) (by decide)).1

/-! ## Lemmas: IPv6 expansion -/

theorem hexDigitVal_lt {c : Char} (h : isHexC c = true) : hexDigitVal c < 16 := by
  simp only [isHexC, isDigitC, Bool.or_eq_true, Bool.and_eq_true,
    decide_eq_true_eq] at h
  unfold hexDigitVal
  rcases h with (h | h) | h
  · rw [if_neg (by omega), if_neg (by omega)]; omega
  · rw [if_pos (by omega)]; omega
  · rw [if_neg (by omega), if_pos (by omega)]; omega

theorem hexFold_lt (p : List Char) : ∀ a : Nat, p.all isHexC = true →
    p.foldl (fun a c => a * 16 + hexDigitVal c) a < (a + 1) * 16 ^ p.length := by
  induction p with
  | nil =>
    intro a _
    simp
  | cons c r ih =>
    intro a hall
    simp only [List.all_cons, Bool.and_eq_true] at hall
    have hc := hexDigitVal_lt hall.1
    have hrec := ih (a * 16 + hexDigitVal c) hall.2
    simp only [List.foldl_cons, List.length_cons]
    have hpow : (16 : Nat) ^ (r.length + 1) = 16 ^ r.length * 16 := pow_succ 16 r.length
    have hmul : (a * 16 + hexDigitVal c + 1) * 16 ^ r.length ≤
        (a + 1) * (16 ^ r.length * 16) := by
      have h1 : a * 16 + hexDigitVal c + 1 ≤ (a + 1) * 16 := by omega
      calc (a * 16 + hexDigitVal c + 1) * 16 ^ r.length
          ≤ (a + 1) * 16 * 16 ^ r.length := Nat.mul_le_mul_right _ h1
        _ = (a + 1) * (16 ^ r.length * 16) := by ring
    rw [hpow]
    exact lt_of_lt_of_le hrec hmul

theorem hexVal_lt {p : List Char} (hall : p.all isHexC = true)
    (hlen : p.length ≤ 4) : hexVal p < 65536 := by
  have h := hexFold_lt p 0 hall
  have hp : (16 : Nat) ^ p.length ≤ 16 ^ 4 := Nat.pow_le_pow_right (by omega) hlen
  unfold hexVal
  calc p.foldl (fun a c => a * 16 + hexDigitVal c) 0 < (0 + 1) * 16 ^ p.length := h
    _ = 16 ^ p.length := by ring
    _ ≤ 65536 := hp

theorem not_startsWith0x {p : List Char} (h2 : p.all isHexC = true) :
    (startsWithC ['0', 'x'] p || startsWithC ['0', 'X'] p) = false := by
  cases p with
  | nil => rfl
  | cons a q =>
    cases q with
    | nil => simp [startsWithC]
    | cons b r =>
      simp only [List.all_cons, Bool.and_eq_true] at h2
      simp only [startsWithC, List.take, Bool.or_eq_false_iff]
      constructor <;>
      · apply decide_eq_false
        intro he
        have hb := h2.2.1
        rw [List.cons.injEq, List.cons.injEq] at he
        rw [he.2.1] at hb
        simp [isHexC, isDigitC] at hb

theorem jsParseInt16_hex {p : List Char} (h1 : p ≠ []) (h2 : p.all isHexC = true) :
    jsParseInt16 p = some (hexVal p) := by
  simp only [jsParseInt16, not_startsWith0x h2, Bool.false_eq_true, if_false,
    takeWhile_all h2, if_neg h1]

theorem groupVal_hex {p : List Char} (h1 : p ≠ []) (h2 : p.all isHexC = true) :
    groupVal p = some (hexVal p) := by
  unfold groupVal
  rw [if_neg h1]
  exact jsParseInt16_hex h1 h2

theorem isHexGroup_spec {p : List Char} (h : isHexGroup p = true) :
    p ≠ [] ∧ p.length ≤ 4 ∧ p.all isHexC = true := by
  simp only [isHexGroup, Bool.and_eq_true, decide_eq_true_eq, ne_eq] at h
  tauto

theorem map_groupVal_hex {ps : List (List Char)} (h : ps.all isHexGroup = true) :
    ps.map groupVal = (ps.map hexVal).map some := by
  induction ps with
  | nil => rfl
  | cons p t ih =>
    simp only [List.all_cons, Bool.and_eq_true] at h
    obtain ⟨h1, h2, h3⟩ := isHexGroup_spec h.1
    simp only [List.map_cons, groupVal_hex h1 h3, ih h.2]

theorem hexGroups_bounded {ps : List (List Char)} (h : ps.all isHexGroup = true) :
    ∀ v ∈ ps.map hexVal, v < 65536 := by
  intro v hv
  rw [List.mem_map] at hv
  obtain ⟨p, hp, rfl⟩ := hv
  rw [List.all_eq_true] at h
  obtain ⟨-, hlen, hall⟩ := isHexGroup_spec (h p hp)
  exact hexVal_lt hall hlen

theorem hexGroups_ne_nil {ps : List (List Char)} (h : ps.all isHexGroup = true) :
    ∀ p ∈ ps, p ≠ [] := by
  intro p hp
  rw [List.all_eq_true] at h
  exact (isHexGroup_spec (h p hp)).1

theorem idxOfEmpty_none {ps : List (List Char)} (h : ∀ p ∈ ps, p ≠ []) :
    idxOfEmpty ps = none := by
  induction ps with
  | nil => rfl
  | cons p t ih =>
    unfold idxOfEmpty
    rw [if_neg (h p (by simp)), ih (fun q hq => h q (by simp [hq]))]
    rfl

theorem idxOfEmpty_append {ps : List (List Char)} (h : ∀ p ∈ ps, p ≠ [])
    (rest : List (List Char)) :
    idxOfEmpty (ps ++ [] :: rest) = some ps.length := by
  induction ps with
  | nil => simp [idxOfEmpty]
  | cons p t ih =>
    rw [List.cons_append]
    unfold idxOfEmpty
    rw [if_neg (h p (by simp)), ih (fun q hq => h q (by simp [hq]))]
    rfl

theorem groupVal_zero : groupVal ['0'] = some 0 := by decide

theorem groupVal_nil : groupVal [] = some 0 := by decide

theorem splitDC_eq : ∀ (l b a : List Char), splitDC l = some (b, a) →
    l = b ++ ':' :: ':' :: a := by
  intro l
  induction l with
  | nil => intro b a h; simp [splitDC] at h
  | cons c1 r ih =>
    intro b a h
    cases r with
    | nil => simp [splitDC] at h
    | cons c2 rest =>
      by_cases hc : c1 = ':' ∧ c2 = ':'
      · rw [splitDC, if_pos hc] at h
        simp only [Option.some_inj, Prod.mk.injEq] at h
        rw [← h.1, ← h.2, hc.1, hc.2]
        rfl
      · rw [splitDC, if_neg hc] at h
        cases hs : splitDC (c2 :: rest) with
        | none => rw [hs] at h; simp at h
        | some p =>
          obtain ⟨b', a'⟩ := p
          rw [hs] at h
          simp only [Option.map_some', Option.some_inj, Prod.mk.injEq] at h
          obtain ⟨hb, ha⟩ := h
          have := ih b' a' hs
          rw [← hb, ← ha, List.cons_append]
          rw [← this]

theorem sideGroups_eq {x : List Char} {gs : List Nat} (h : sideGroups x = some gs) :
    (x = [] ∧ gs = []) ∨
    (x ≠ [] ∧ (splitOnC ':' x).all isHexGroup = true ∧
      gs = (splitOnC ':' x).map hexVal) := by
  simp only [sideGroups] at h
  by_cases hx : x = []
  · rw [if_pos hx] at h
    left
    simp only [Option.some_inj] at h
    exact ⟨hx, h.symm⟩
  · rw [if_neg hx] at h
    by_cases hall : (splitOnC ':' x).all isHexGroup = true
    · rw [if_pos hall] at h
      right
      simp only [Option.some_inj] at h
      exact ⟨hx, hall, h.symm⟩
    · rw [if_neg hall] at h
      simp at h

theorem splitOnC_colon_cons (a : List Char) :
    splitOnC ':' (':' :: a) = [] :: splitOnC ':' a := by
  simp [splitOnC]

/-- Computation of the code's `expand` when the split has a first empty
chunk at position `pre.length` (the chunks of `pre` all nonempty). -/
theorem expandC_split {l : List Char} {pre post : List (List Char)}
    (hsp : splitOnC ':' l = pre ++ [] :: post)
    (hpre : ∀ p ∈ pre, p ≠ [])
    (hbound : pre.length + post.length ≤ 8) :
    expandC l = some (pre.map groupVal ++
      List.replicate (8 - pre.length - post.length) (some 0) ++
      post.map groupVal) := by
  simp only [expandC]
  rw [hsp, idxOfEmpty_append hpre post]
  dsimp only
  have hlen2 : (pre ++ [] :: post).length = pre.length + post.length + 1 := by
    simp only [List.length_append, List.length_cons]
    omega
  rw [hlen2]
  rw [if_neg (by push_cast; omega)]
  have htake : (pre ++ [] :: post).take pre.length = pre := List.take_left pre _
  have hdrop : (pre ++ [] :: post).drop (pre.length + 1) = post := by
    rw [show pre ++ [] :: post = (pre ++ [[]]) ++ post by simp]
    rw [show pre.length + 1 = (pre ++ [[]]).length by simp]
    exact List.drop_left _ _
  rw [htake, hdrop]
  rw [show ((8 : Int) - (((pre.length + post.length + 1 : Nat) : Int) - 1)).toNat =
    8 - pre.length - post.length by push_cast; omega]
  rw [List.map_append, List.map_append, List.map_replicate, groupVal_zero]

theorem replicate_some_append (n : Nat) (rest : List (Option Nat)) :
    List.replicate n (some 0) ++ some 0 :: rest =
      List.replicate (n + 1) (some 0) ++ rest := by
  rw [List.replicate_succ']
  simp

/-- The code's `expand` computes exactly the specification's eight-group
expansion on every valid colon-hex literal. -/
theorem expandC_parse {l : List Char} {gs : List Nat} (h : parseIPv6 l = some gs) :
    expandC l = some (gs.map some) ∧ gs.length = 8 ∧ (∀ g ∈ gs, g < 65536) := by
  unfold parseIPv6 at h
  cases hdc : splitDC l with
  | none =>
    rw [hdc] at h
    dsimp only at h
    split_ifs at h with hg
    · simp only [Option.some_inj] at h
      subst h
      simp only [Bool.and_eq_true, decide_eq_true_eq] at hg
      obtain ⟨hlen, hall⟩ := hg
      refine ⟨?_, by simp [hlen], hexGroups_bounded hall⟩
      simp only [expandC]
      rw [idxOfEmpty_none (hexGroups_ne_nil hall)]
      rw [map_groupVal_hex hall]
  | some ba =>
    obtain ⟨b, a⟩ := ba
    rw [hdc] at h
    dsimp only at h
    cases hsb : sideGroups b with
    | none => rw [hsb] at h; simp at h
    | some bs =>
      cases hsa : sideGroups a with
      | none => rw [hsb, hsa] at h; simp at h
      | some as_ =>
        rw [hsb, hsa] at h
        dsimp only at h
        split_ifs at h with hlen
        · simp only [Option.some_inj] at h
          subst h
          have hl := splitDC_eq l b a hdc
          have hsplit : splitOnC ':' l =
              splitOnC ':' b ++ [] :: splitOnC ':' a := by
            rw [hl, splitOnC_append, splitOnC_colon_cons]
          rcases sideGroups_eq hsb with ⟨rfl, rfl⟩ | ⟨hbne, hallB, rfl⟩ <;>
            rcases sideGroups_eq hsa with ⟨rfl, rfl⟩ | ⟨hane, hallA, rfl⟩
          · -- l = "::"
            subst hl
            refine ⟨by decide, by decide, by decide⟩
          · -- l = "::" ++ a
            have hkey : splitOnC ':' l = [] ++ [] :: ([] :: splitOnC ':' a) := by
              rw [hsplit]; rfl
            have hk := List.length_map (splitOnC ':' a) hexVal
            rw [hk] at hlen
            simp only [List.length_nil, Nat.zero_add, List.nil_append] at hlen ⊢
            refine ⟨?_, ?_, ?_⟩
            · rw [expandC_split hkey (by simp)
                (by simp only [List.length_nil, List.length_cons]; omega)]
              rw [List.map_cons, groupVal_nil, map_groupVal_hex hallA,
                List.map_nil, List.nil_append, replicate_some_append]
              rw [List.map_append, List.map_replicate]
              rw [show (8 - ([] : List (List Char)).length -
                  ([] :: splitOnC ':' a).length + 1 : Nat) =
                  8 - 0 - ((splitOnC ':' a).map hexVal).length by
                simp only [List.length_nil, List.length_cons, List.length_map]
                omega]
            · simp only [List.length_append, List.length_replicate, List.length_map]
              omega
            · intro g hg
              simp only [List.mem_append, List.mem_replicate] at hg
              rcases hg with hg | hg
              · omega
              · exact hexGroups_bounded hallA g hg
          · -- l = b ++ "::"
            have hkey : splitOnC ':' l = splitOnC ':' b ++ [] :: [[]] := by
              rw [hsplit]; rfl
            have hk := List.length_map (splitOnC ':' b) hexVal
            rw [hk] at hlen
            simp only [List.length_nil, List.append_nil, Nat.add_zero] at hlen ⊢
            refine ⟨?_, ?_, ?_⟩
            · rw [expandC_split hkey (hexGroups_ne_nil hallB)
                (by simp only [List.length_singleton]; omega)]
              rw [show List.map groupVal [[]] = [some 0] by
                rw [List.map_cons, groupVal_nil, List.map_nil]]
              rw [map_groupVal_hex hallB]
              rw [List.map_append, List.map_replicate]
              rw [show (8 - (List.map hexVal (splitOnC ':' b)).length - 0 : Nat) =
                (8 - (splitOnC ':' b).length - ([[]] : List (List Char)).length) + 1 by
                simp only [List.length_map, List.length_singleton]
                omega]
              rw [List.replicate_succ']
              simp [List.append_assoc]
            · simp only [List.length_append, List.length_replicate, List.length_map]
              omega
            · intro g hg
              simp only [List.append_nil, List.mem_append, List.mem_replicate] at hg
              rcases hg with hg | hg
              · exact hexGroups_bounded hallB g hg
              · omega
          · -- l = b ++ "::" ++ a
            have hkey : splitOnC ':' l = splitOnC ':' b ++ [] :: splitOnC ':' a := by
              rw [hsplit]
            have hkB := List.length_map (splitOnC ':' b) hexVal
            have hkA := List.length_map (splitOnC ':' a) hexVal
            refine ⟨?_, ?_, ?_⟩
            · rw [expandC_split hkey (hexGroups_ne_nil hallB) (by omega)]
              rw [map_groupVal_hex hallB, map_groupVal_hex hallA]
              rw [List.map_append, List.map_append, List.map_replicate]
              rw [show (8 - (splitOnC ':' b).length - (splitOnC ':' a).length : Nat) =
                8 - ((splitOnC ':' b).map hexVal).length -
                  ((splitOnC ':' a).map hexVal).length by
                simp only [List.length_map]]
            · simp only [List.length_append, List.length_replicate, List.length_map]
              omega
            · intro g hg
              simp only [List.mem_append, List.mem_replicate] at hg
              rcases hg with (hg | hg) | hg
              · exact hexGroups_bounded hallB g hg
              · omega
              · exact hexGroups_bounded hallA g hg

theorem padTo8_id {l : List (Option Nat)} (h : l.length = 8) : padTo8 l = l := by
  unfold padTo8
  rw [← h, List.take_left]

/-- The comparison loop on valid (bounded, NaN-free) expansions computes
the common bit-prefix length `cpb`. -/
theorem v6Loop_cpb : ∀ (xs ys : List Nat) (acc : Int),
    xs.length = ys.length → (∀ x ∈ xs, x < 65536) → (∀ y ∈ ys, y < 65536) →
    v6Loop (xs.map some) (ys.map some) acc = some (acc + (cpb xs ys : Int)) := by
  intro xs
  induction xs with
  | nil =>
    intro ys acc hlen _ _
    cases ys with
    | nil => simp [v6Loop, cpb]
    | cons y t => simp at hlen
  | cons x xs' ih =>
    intro ys acc hx hy
    cases ys with
    | nil => simp at hx
    | cons y ys' =>
      intro hys
      simp only [List.length_cons, Nat.add_right_cancel_iff] at hx
      have hxb : x < 65536 := hy x (by simp)
      have hyb : y < 65536 := hys y (by simp)
      simp only [List.map_cons, v6Loop]
      have hu : ∀ z : Nat, z < 65536 → u32 (some z) = z := by
        intro z hz
        unfold u32
        simp only [Option.getD_some]
        omega
      rw [hu x hxb, hu y hyb]
      by_cases hd : x ^^^ y = 0
      · rw [if_pos hd]
        have hxy : x = y := Nat.xor_eq_zero.mp hd
        rw [ih ys' (acc + 16) hx (fun z hz => hy z (by simp [hz]))
          (fun z hz => hys z (by simp [hz]))]
        rw [show cpb (x :: xs') (y :: ys') = 16 + cpb xs' ys' by
          simp only [cpb]; rw [if_pos hxy]]
        push_cast
        ring_nf
      · rw [if_neg hd]
        have hdb : x ^^^ y < 65536 :=
          Nat.xor_lt_two_pow (n := 16) hxb hyb
        rw [if_neg (by omega)]
        have hlog : log2C (x ^^^ y) ≤ 15 := by
          rw [log2C_eq_log2]
          have := (Nat.log2_lt hd).mpr (show x ^^^ y < 2 ^ 16 from hdb)
          omega
        rw [show cpb (x :: xs') (y :: ys') = 15 - log2C (x ^^^ y) by
          simp only [cpb]; rw [if_neg (fun hxy => hd (by rw [hxy, Nat.xor_self]))]]
        congr 1
        push_cast [Nat.cast_sub hlog]
        ring_nf

theorem bit128_cons_lt {x : Nat} {xs : List Nat} {i : Nat} (h : i < 16) :
    bit128 (x :: xs) i = x.testBit (15 - i) := by
  unfold bit128
  rw [Nat.div_eq_of_lt h, Nat.mod_eq_of_lt h]
  rfl

theorem bit128_cons_ge {x : Nat} {xs : List Nat} {i : Nat} (h : 16 ≤ i) :
    bit128 (x :: xs) i = bit128 xs (i - 16) := by
  unfold bit128
  rw [show i / 16 = (i - 16) / 16 + 1 by omega, List.getD_cons_succ,
    show i % 16 = (i - 16) % 16 by omega]

theorem testBit_log2_self {d : Nat} (hd : d ≠ 0) :
    d.testBit (Nat.log2 d) = true := by
  rw [Nat.testBit_to_div_mod]
  have h1 : 2 ^ d.log2 ≤ d := Nat.log2_self_le hd
  have h2 : d < 2 ^ (d.log2 + 1) := Nat.lt_log2_self
  have hpow : (2 : Nat) ^ (d.log2 + 1) = 2 ^ d.log2 * 2 := pow_succ 2 d.log2
  have hpos : 0 < 2 ^ d.log2 := Nat.pos_pow_of_pos _ (by omega)
  have hdiv : d / 2 ^ d.log2 = 1 := by
    have hlt : d / 2 ^ d.log2 < 2 := Nat.div_lt_of_lt_mul (by omega)
    have hge : 1 ≤ d / 2 ^ d.log2 := (Nat.one_le_div_iff hpos).mpr h1
    omega
  simp [hdiv]

theorem testBit_high_agree {x y j : Nat} (hne : x ≠ y)
    (hj : Nat.log2 (x ^^^ y) < j) : x.testBit j = y.testBit j := by
  have hd : x ^^^ y ≠ 0 := fun hc => hne (Nat.xor_eq_zero.mp hc)
  have hlt : x ^^^ y < 2 ^ j := (Nat.log2_lt hd).mp hj
  have hbit := Nat.testBit_lt_two_pow hlt
  rw [Nat.testBit_xor] at hbit
  cases hx : x.testBit j <;> cases hy : y.testBit j <;>
    rw [hx, hy] at hbit <;> simp_all

theorem testBit_log2_disagree {x y : Nat} (hne : x ≠ y) :
    x.testBit (Nat.log2 (x ^^^ y)) ≠ y.testBit (Nat.log2 (x ^^^ y)) := by
  have hd : x ^^^ y ≠ 0 := fun hc => hne (Nat.xor_eq_zero.mp hc)
  have hbit := testBit_log2_self hd
  rw [Nat.testBit_xor] at hbit
  cases hx : x.testBit (Nat.log2 (x ^^^ y)) <;>
    cases hy : y.testBit (Nat.log2 (x ^^^ y)) <;>
    rw [hx, hy] at hbit <;> simp_all

/-- `cpb` is exactly the longest agreeing bit prefix: the first `m` bits
agree iff `m ≤ cpb`. -/
theorem cpb_prefix : ∀ (xs ys : List Nat), xs.length = ys.length →
    (∀ x ∈ xs, x < 65536) → (∀ y ∈ ys, y < 65536) →
    ∀ m, m ≤ 16 * xs.length →
    (m ≤ cpb xs ys ↔ ∀ i, i < m → bit128 xs i = bit128 ys i) := by
  intro xs
  induction xs with
  | nil =>
    intro ys hlen _ _ m hm
    simp only [List.length_nil, Nat.mul_zero, Nat.le_zero] at hm
    subst hm
    simp
  | cons x xs' ih =>
    intro ys hlen hxb hyb m hm
    cases ys with
    | nil => simp at hlen
    | cons y ys' =>
      simp only [List.length_cons, Nat.add_right_cancel_iff] at hlen
      have hx := hxb x (by simp)
      have hy := hyb y (by simp)
      by_cases hxy : x = y
      · rw [show cpb (x :: xs') (y :: ys') = 16 + cpb xs' ys' by
          simp only [cpb]; rw [if_pos hxy]]
        by_cases hm16 : m ≤ 16
        · constructor
          · intro _ i him
            rw [bit128_cons_lt (by omega), bit128_cons_lt (by omega), hxy]
          · intro _
            omega
        · constructor
          · intro hcp i him
            by_cases hi : i < 16
            · rw [bit128_cons_lt hi, bit128_cons_lt hi, hxy]
            · rw [bit128_cons_ge (by omega), bit128_cons_ge (by omega)]
              have := (ih ys' hlen (fun z hz => hxb z (by simp [hz]))
                (fun z hz => hyb z (by simp [hz])) (m - 16)
                (by simp only [List.length_cons] at hm; omega)).mp (by omega)
              exact this (i - 16) (by omega)
          · intro hall
            have hsub : ∀ j, j < m - 16 → bit128 xs' j = bit128 ys' j := by
              intro j hj
              have := hall (j + 16) (by omega)
              rw [bit128_cons_ge (by omega), bit128_cons_ge (by omega)] at this
              simpa using this
            have := (ih ys' hlen (fun z hz => hxb z (by simp [hz]))
              (fun z hz => hyb z (by simp [hz])) (m - 16)
              (by simp only [List.length_cons] at hm; omega)).mpr hsub
            omega
      · rw [show cpb (x :: xs') (y :: ys') = 15 - log2C (x ^^^ y) by
          simp only [cpb]; rw [if_neg hxy]]
        rw [log2C_eq_log2]
        have hd : x ^^^ y ≠ 0 := fun hc => hxy (Nat.xor_eq_zero.mp hc)
        have hdb : x ^^^ y < 65536 := Nat.xor_lt_two_pow (n := 16) hx hy
        have hlog : Nat.log2 (x ^^^ y) ≤ 15 := by
          have := (Nat.log2_lt hd).mpr (show x ^^^ y < 2 ^ 16 from hdb)
          omega
        set t := 15 - Nat.log2 (x ^^^ y) with ht
        constructor
        · intro hcp i him
          have hit : i < t := by omega
          rw [bit128_cons_lt (by omega), bit128_cons_lt (by omega)]
          exact testBit_high_agree hxy (by omega)
        · intro hall
          by_contra hcon
          have htm : t < m := by omega
          have := hall t htm
          rw [bit128_cons_lt (by omega), bit128_cons_lt (by omega)] at this
          have h15 : 15 - t = Nat.log2 (x ^^^ y) := by omega
          rw [h15] at this
          exact testBit_log2_disagree hxy this

/-- `isIPv6InCidr` on valid literals: the result is exactly agreement of
the leading `m` bits of the two eight-group expansions. -/
theorem isIPv6InCidr_agree (ip net bits : List Char) (gs hs : List Nat) (m : Nat)
    (hip : parseIPv6 ip = some gs) (hnet : parseIPv6 net = some hs)
    (hm : m ≤ 128) (hb1 : bits ≠ []) (hb2 : bits.all isDigitC = true)
    (hbv : decVal bits = m) (hns : ∀ x ∈ net, x ≠ '/') :
    isIPv6InCidrC ip (net ++ '/' :: bits) = decide (prefixAgree m gs hs) := by
  obtain ⟨hei, hgl, hgb⟩ := expandC_parse hip
  obtain ⟨hen, hhl, hhb⟩ := expandC_parse hnet
  have hsplit : splitOnC '/' (net ++ '/' :: bits) = [net, bits] := by
    rw [splitOnC_append, splitOnC_no_sep _ net hns,
      splitOnC_no_sep _ bits (digits_mem_ne hb2 (by decide))]
    rfl
  have hbits : jsNumber bits = some ((m : Int)) := by
    rw [jsNumber_digits bits hb1 hb2, hbv]
  simp only [isIPv6InCidrC, hsplit, List.headD, List.get?, Option.some_bind, hbits,
    hei, hen]
  rw [padTo8_id (by simp [hgl]), padTo8_id (by simp [hhl])]
  rw [v6Loop_cpb gs hs 0 (hgl.trans hhl.symm) hgb hhb]
  dsimp only
  have hiff : ((m : Int) ≤ 0 + (cpb gs hs : Int)) ↔ prefixAgree m gs hs := by
    rw [zero_add, Int.ofNat_le]
    exact cpb_prefix gs hs (hgl.trans hhl.symm) hgb hhb m (by rw [hgl]; omega)
  rw [decide_eq_decide.mpr hiff]

/-! ## Lemmas: the shipped denylist on canonical addresses -/

theorem dottedQuad_not_digits (o1 o2 o3 o4 : Nat) :
    (dottedQuad o1 o2 o3 o4).all isDigitC = false := by
  have hdot : '.' ∈ dottedQuad o1 o2 o3 o4 := by
    unfold dottedQuad
    rw [List.mem_append]
    right
    simp
  by_contra hcon
  rw [Bool.not_eq_false, List.all_eq_true] at hcon
  exact absurd (isDigit_val (hcon '.' hdot)) (by decide)

theorem dottedQuad_no_colon (o1 o2 o3 o4 : Nat) :
    isIPv6C (dottedQuad o1 o2 o3 o4) = false := by
  unfold isIPv6C
  rw [Bool.eq_false_iff]
  intro hcon
  rw [List.any_eq_true] at hcon
  obtain ⟨c, hc, hceq⟩ := hcon
  rw [decide_eq_true_eq] at hceq
  subst hceq
  unfold dottedQuad at hc
  simp only [List.mem_append, List.mem_cons] at hc
  have h1 := natToDec_mem_ne (n := o1) (c := ':') (by decide)
  have h2 := natToDec_mem_ne (n := o2) (c := ':') (by decide)
  have h3 := natToDec_mem_ne (n := o3) (c := ':') (by decide)
  have h4 := natToDec_mem_ne (n := o4) (c := ':') (by decide)
  rcases hc with ((hc | hc | hc) | hc | hc) | hc | hc
  · exact h1 ':' hc rfl
  · exact absurd hc (by decide)
  · exact h2 ':' hc rfl
  · exact absurd hc (by decide)
  · exact h3 ':' hc rfl
  · exact absurd hc (by decide)
  · exact h4 ':' hc rfl

theorem dottedQuad_not_0x (o1 o2 o3 o4 : Nat) :
    startsWithC ['0', 'x'] (dottedQuad o1 o2 o3 o4) = false := by
  unfold dottedQuad
  cases hn : natToDec o1 with
  | nil => exact absurd hn (natToDec_ne_nil o1)
  | cons c1 rest =>
    cases rest with
    | nil =>
      simp only [List.nil_append, List.cons_append, startsWithC, List.take]
      apply decide_eq_false
      intro hcon
      rw [List.cons.injEq, List.cons.injEq] at hcon
      exact absurd hcon.2.1 (by decide)
    | cons c2 rest2 =>
      simp only [List.cons_append, startsWithC, List.take]
      apply decide_eq_false
      intro hcon
      rw [List.cons.injEq, List.cons.injEq] at hcon
      have hc2 : c2 ∈ natToDec o1 := by rw [hn]; simp
      exact natToDec_mem_ne (c := 'x') (by decide) c2 hc2 hcon.2.1

theorem dottedQuad_starts0 (o1 o2 o3 o4 : Nat) :
    startsWithC ['0'] (dottedQuad o1 o2 o3 o4) = (o1 = 0 : Bool) := by
  unfold dottedQuad
  by_cases ho : o1 = 0
  · subst ho
    rw [natToDec_zero]
    simp [startsWithC]
  · cases hn : natToDec o1 with
    | nil => exact absurd hn (natToDec_ne_nil o1)
    | cons c1 rest =>
      have hc1 : c1 ≠ '0' := by
        have := natToDec_head_pos o1 ho
        rw [hn] at this
        exact this
      simp only [List.cons_append, startsWithC, List.take, List.take_zero]
      rw [decide_eq_false (by simp [hc1]), eq_comm, decide_eq_false ho]

theorem jsParseInt8_zeroDot (rest : List Char) :
    jsParseInt8 ('0' :: '.' :: rest) = some 0 := by
  have h0 : isOctC '0' = true := by decide
  have hdot : isOctC '.' = false := by decide
  simp only [jsParseInt8, List.takeWhile, h0, hdot]
  rfl

/-- `normalizeIPv4` on a canonical dotted quad: the octal branch swallows
quads with leading octet `0` (producing `0.0.0.0`); all others normalize
to themselves. -/
theorem normC_dottedQuad (o1 o2 o3 o4 : Nat) (h1 : o1 ≤ 255) (h2 : o2 ≤ 255)
    (h3 : o3 ≤ 255) (h4 : o4 ≤ 255) :
    normalizeIPv4C (dottedQuad o1 o2 o3 o4) =
      some (if o1 = 0 then dotted32 0 else dottedQuad o1 o2 o3 o4) := by
  simp only [normalizeIPv4C, dottedQuad_not_digits, Bool.and_false, Bool.false_and,
    Bool.false_eq_true, if_false, dottedQuad_not_0x, dottedQuad_starts0]
  by_cases ho : o1 = 0
  · subst ho
    rw [if_pos (by
      rw [Bool.and_eq_true, decide_eq_true_eq, decide_eq_true_eq]
      refine ⟨rfl, ?_⟩
      unfold dottedQuad
      rw [natToDec_zero]
      simp)]
    rw [if_pos rfl]
    unfold dottedQuad
    rw [natToDec_zero]
    rw [show ('0' :: []) ++ '.' :: natToDec o2 ++ '.' :: natToDec o3 ++ '.' :: natToDec o4
      = '0' :: '.' :: (natToDec o2 ++ '.' :: natToDec o3 ++ '.' :: natToDec o4) from rfl]
    rw [jsParseInt8_zeroDot]
    rfl
  · rw [if_neg (by simp [ho]), if_neg ho]
    rw [splitOnC_dottedQuad]
    have hok : ∀ o : Nat, o ≤ 255 → octetOk (natToDec o) = true := by
      intro o hob
      unfold octetOk
      rw [jsNumber_natToDec]
      simp
      omega
    rw [if_pos (by
      simp only [List.length_cons, List.length_nil, List.all_cons, List.all_nil,
        hok o1 h1, hok o2 h2, hok o3 h3, hok o4 h4]
      simp)]
    have hout : ∀ o : Nat, octetOut (natToDec o) = natToDec o := by
      intro o
      unfold octetOut
      rw [jsNumber_natToDec]
      simp
    simp only [List.map_cons, List.map_nil, hout]
    rw [← dottedQuad_eq_join]

/-- High-bits mask: for `v < 2^32` and `k ≤ 32`,
`v &&& (2^32 - 2^k)` clears the low `k` bits. -/
theorem land_high {v : Nat} (k : Nat) (hv : v < 4294967296) (hk : k ≤ 32) :
    v &&& (4294967296 - 2 ^ k) = v / 2 ^ k * 2 ^ k := by
  apply Nat.eq_of_testBit_eq
  intro i
  rw [Nat.testBit_land]
  have hmask : (4294967296 - 2 ^ k : Nat) = (2 ^ (32 - k) - 1) * 2 ^ k := by
    rw [Nat.sub_mul, one_mul, ← pow_add]
    rw [show 32 - k + k = 32 by omega]
    norm_num
  rw [hmask]
  rw [show (2 ^ (32 - k) - 1) * 2 ^ k = (2 ^ (32 - k) - 1) <<< k from
    (Nat.shiftLeft_eq _ _).symm]
  rw [Nat.testBit_shiftLeft, Nat.testBit_two_pow_sub_one]
  rw [show v / 2 ^ k * 2 ^ k = (v >>> k) <<< k from by
    rw [Nat.shiftRight_eq_div_pow, Nat.shiftLeft_eq]]
  rw [Nat.testBit_shiftLeft, Nat.testBit_shiftRight]
  by_cases hik : k ≤ i
  · rw [show k + (i - k) = i by omega]
    by_cases hi32 : i < 32
    · simp [hik, show i - k < 32 - k by omega]
    · have hvb : v.testBit i = false := Nat.testBit_lt_two_pow (lt_of_lt_of_le hv (by
        rw [show (4294967296 : Nat) = 2 ^ 32 by norm_num]
        exact Nat.pow_le_pow_right (by omega) (by omega)))
      simp [hvb, hik, show ¬ (i - k < 32 - k) by omega]
  · simp [hik]

/-- A CIDR entry whose network part does not normalize as IPv4 never
matches through `isIpv4InCidr`. -/
theorem isIpv4InCidr_noneRange (ip cidr : List Char)
    (h : normalizeIPv4C ((splitOnC '/' cidr).headD []) = none) :
    isIpv4InCidrC ip cidr = false := by
  simp only [isIpv4InCidrC, h]
  cases normalizeIPv4C ip <;> rfl

/-- Unfolding one CIDR entry of the range loop of `isPrivateIp` for a
non-IPv6 address. -/
theorem isPrivateIp_cons_cidr4 (r : String) (rest : List String) (ip : String)
    (hr : r.data.contains '/' = true) (hv6 : isIPv6 ip = false) :
    isPrivateIp (r :: rest) ip =
      (isIpv4InCidrC ip.data r.data || isPrivateIp rest ip) := by
  unfold isPrivateIp
  simp only [List.any_cons]
  rw [if_neg (not_not_intro hr), if_neg (by rw [hv6]; exact Bool.false_ne_true)]

theorem isPrivateIp_nil (ip : String) : isPrivateIp [] ip = false := rfl

/-- Reading bit `j ≥ k` of `a` through the quotient `a / 2 ^ k`. -/
theorem testBit_of_div (a : Nat) {k j : Nat} (hj : k ≤ j) :
    a.testBit j = (a / 2 ^ k).testBit (j - k) := by
  rw [← Nat.shiftRight_eq_div_pow, Nat.testBit_shiftRight,
    show k + (j - k) = j by omega]

theorem getD_zero_headD (l : List Nat) : l.getD 0 0 = l.headD 0 := by
  cases l <;> rfl

theorem land_mask8 {v : Nat} (hv : v < 4294967296) :
    v &&& 4278190080 = v / 16777216 * 16777216 := by
  have h := land_high (v := v) 24 hv (by norm_num)
  norm_num at h
  exact h

theorem land_mask12 {v : Nat} (hv : v < 4294967296) :
    v &&& 4293918720 = v / 1048576 * 1048576 := by
  have h := land_high (v := v) 20 hv (by norm_num)
  norm_num at h
  exact h

theorem land_mask16 {v : Nat} (hv : v < 4294967296) :
    v &&& 4294901760 = v / 65536 * 65536 := by
  have h := land_high (v := v) 16 hv (by norm_num)
  norm_num at h
  exact h

theorem land_mask4 {v : Nat} (hv : v < 4294967296) :
    v &&& 4026531840 = v / 268435456 * 268435456 := by
  have h := land_high (v := v) 28 hv (by norm_num)
  norm_num at h
  exact h

/-- The shipped denylist on a canonical dotted quad: blocked exactly for
the five private ranges and multicast (`specBlockedV4`); the entry
`127.0.0.1/8` behaves as the network `127.0.0.0/8`. -/
theorem blockedV4_eval (o1 o2 o3 o4 : Nat) (h1 : o1 ≤ 255) (h2 : o2 ≤ 255)
    (h3 : o3 ≤ 255) (h4 : o4 ≤ 255) :
    isPrivateIp securityRulesConfig.ssrf.blockedIpRanges
        ((dottedQuad o1 o2 o3 o4).asString) = specBlockedV4 o1 o2 := by
  have hip : ((dottedQuad o1 o2 o3 o4).asString).data = dottedQuad o1 o2 o3 o4 := rfl
  have hv6 : isIPv6 ((dottedQuad o1 o2 o3 o4).asString) = false := by
    unfold isIPv6
    rw [hip]
    exact dottedQuad_no_colon o1 o2 o3 o4
  rw [show securityRulesConfig.ssrf.blockedIpRanges =
      ["127.0.0.1/8", "10.0.0.0/8", "172.16.0.0/12", "192.168.0.0/16",
       "169.254.0.0/16", "224.0.0.0/4", "::1/128", "fe80::/10", "fc00::/7"] from rfl]
  rw [isPrivateIp_cons_cidr4 _ _ _ (by decide) hv6,
      isPrivateIp_cons_cidr4 _ _ _ (by decide) hv6,
      isPrivateIp_cons_cidr4 _ _ _ (by decide) hv6,
      isPrivateIp_cons_cidr4 _ _ _ (by decide) hv6,
      isPrivateIp_cons_cidr4 _ _ _ (by decide) hv6,
      isPrivateIp_cons_cidr4 _ _ _ (by decide) hv6,
      isPrivateIp_cons_cidr4 _ _ _ (by decide) hv6,
      isPrivateIp_cons_cidr4 _ _ _ (by decide) hv6,
      isPrivateIp_cons_cidr4 _ _ _ (by decide) hv6,
      isPrivateIp_nil, hip]
  rw [show isIpv4InCidrC (dottedQuad o1 o2 o3 o4) ("::1/128" : String).data = false from
        isIpv4InCidr_noneRange _ _ (by decide),
      show isIpv4InCidrC (dottedQuad o1 o2 o3 o4) ("fe80::/10" : String).data = false from
        isIpv4InCidr_noneRange _ _ (by decide),
      show isIpv4InCidrC (dottedQuad o1 o2 o3 o4) ("fc00::/7" : String).data = false from
        isIpv4InCidr_noneRange _ _ (by decide)]
  rw [show ("127.0.0.1/8" : String).data = "127.0.0.1".data ++ '/' :: "8".data from rfl,
      show ("10.0.0.0/8" : String).data = "10.0.0.0".data ++ '/' :: "8".data from rfl,
      show ("172.16.0.0/12" : String).data = "172.16.0.0".data ++ '/' :: "12".data from rfl,
      show ("192.168.0.0/16" : String).data = "192.168.0.0".data ++ '/' :: "16".data from rfl,
      show ("169.254.0.0/16" : String).data = "169.254.0.0".data ++ '/' :: "16".data from rfl,
      show ("224.0.0.0/4" : String).data = "224.0.0.0".data ++ '/' :: "4".data from rfl]
  rw [isIpv4InCidr_eval _ _ _ 8 (by norm_num) (by decide) (by decide) (by decide) (by decide),
      isIpv4InCidr_eval _ _ _ 8 (by norm_num) (by decide) (by decide) (by decide) (by decide),
      isIpv4InCidr_eval _ _ _ 12 (by norm_num) (by decide) (by decide) (by decide) (by decide),
      isIpv4InCidr_eval _ _ _ 16 (by norm_num) (by decide) (by decide) (by decide) (by decide),
      isIpv4InCidr_eval _ _ _ 16 (by norm_num) (by decide) (by decide) (by decide) (by decide),
      isIpv4InCidr_eval _ _ _ 4 (by norm_num) (by decide) (by decide) (by decide) (by decide)]
  rw [normC_dottedQuad o1 o2 o3 o4 h1 h2 h3 h4]
  rw [show normalizeIPv4C ("127.0.0.1".data) = some ("127.0.0.1".data) from by decide,
      show normalizeIPv4C ("10.0.0.0".data) = some ("10.0.0.0".data) from by decide,
      show normalizeIPv4C ("172.16.0.0".data) = some ("172.16.0.0".data) from by decide,
      show normalizeIPv4C ("192.168.0.0".data) = some ("192.168.0.0".data) from by decide,
      show normalizeIPv4C ("169.254.0.0".data) = some ("169.254.0.0".data) from by decide,
      show normalizeIPv4C ("224.0.0.0".data) = some ("224.0.0.0".data) from by decide]
  dsimp only
  rw [show ipStrVal ("127.0.0.1".data) &&& specMask 8 = 2130706432 from by decide,
      show ipStrVal ("10.0.0.0".data) &&& specMask 8 = 167772160 from by decide,
      show ipStrVal ("172.16.0.0".data) &&& specMask 12 = 2886729728 from by decide,
      show ipStrVal ("192.168.0.0".data) &&& specMask 16 = 3232235520 from by decide,
      show ipStrVal ("169.254.0.0".data) &&& specMask 16 = 2851995648 from by decide,
      show ipStrVal ("224.0.0.0".data) &&& specMask 4 = 3758096384 from by decide]
  by_cases ho : o1 = 0
  · subst ho
    rw [if_pos rfl]
    rw [show specBlockedV4 0 o2 = false from by simp [specBlockedV4]]
    decide
  · rw [if_neg ho, ipStrVal_dottedQuad o1 o2 o3 o4 h1 h2 h3 h4]
    have hv : quadVal o1 o2 o3 o4 < 4294967296 := by unfold quadVal; omega
    rw [show specMask 8 = 4278190080 from rfl, show specMask 12 = 4293918720 from rfl,
        show specMask 16 = 4294901760 from rfl, show specMask 4 = 4026531840 from rfl]
    rw [land_mask8 hv, land_mask12 hv, land_mask16 hv, land_mask4 hv]
    rw [Bool.eq_iff_iff]
    simp only [Bool.or_eq_true, decide_eq_true_eq, specBlockedV4, Bool.and_eq_true,
      Bool.false_eq_true, or_false]
    unfold quadVal
    omega

/-- A literal with a `"::"` contains a colon. -/
theorem splitDC_colon : ∀ (l : List Char) (p : List Char × List Char),
    splitDC l = some p → ':' ∈ l
  | [], _, h => by simp [splitDC] at h
  | [_], _, h => by simp [splitDC] at h
  | c1 :: c2 :: rest, p, h => by
    simp only [splitDC] at h
    by_cases hc : c1 = ':' ∧ c2 = ':'
    · exact hc.1 ▸ List.mem_cons_self _ _
    · rw [if_neg hc] at h
      cases hs : splitDC (c2 :: rest) with
      | none => rw [hs] at h; simp at h
      | some q => exact List.mem_cons_of_mem _ (splitDC_colon (c2 :: rest) q hs)

/-- A parseable IPv6 literal is recognized as IPv6 by the code's
colon test. -/
theorem parseIPv6_colon {l : List Char} {gs : List Nat}
    (h : parseIPv6 l = some gs) : isIPv6C l = true := by
  unfold isIPv6C
  rw [List.any_eq_true]
  unfold parseIPv6 at h
  cases hs : splitDC l with
  | some p => exact ⟨':', splitDC_colon l p hs, by decide⟩
  | none =>
    rw [hs] at h
    by_contra hcon
    push_neg at hcon
    have hnc : ∀ x ∈ l, x ≠ ':' := fun x hx he =>
      hcon x hx (decide_eq_true he)
    rw [splitOnC_no_sep ':' l hnc] at h
    simp at h

/-- Agreement of the first `m ≤ 16` bits follows from agreement of the
first groups' top `m` bits. -/
theorem prefixAgree_head {m k : Nat} (hmk : m + k = 16)
    (gs hs : List Nat) (h : gs.headD 0 / 2 ^ k = hs.headD 0 / 2 ^ k) :
    prefixAgree m gs hs := by
  intro i hi
  unfold bit128
  rw [Nat.div_eq_of_lt (by omega), Nat.mod_eq_of_lt (by omega),
    getD_zero_headD, getD_zero_headD,
    testBit_of_div (gs.headD 0) (show k ≤ 15 - i by omega),
    testBit_of_div (hs.headD 0) (show k ≤ 15 - i by omega), h]

/-- Every address in one of the three shipped IPv6 denylist ranges is
blocked by the classifier. -/
theorem blockedV6_super (l : List Char) (gs : List Nat)
    (hp : parseIPv6 l = some gs) (hb : specBlockedV6 gs = true) :
    isPrivateIp securityRulesConfig.ssrf.blockedIpRanges l.asString = true := by
  have hip : (l.asString).data = l := rfl
  have hv6 : isIPv6 (l.asString) = true := parseIPv6_colon hp
  rw [show securityRulesConfig.ssrf.blockedIpRanges =
      ["127.0.0.1/8", "10.0.0.0/8", "172.16.0.0/12", "192.168.0.0/16",
       "169.254.0.0/16", "224.0.0.0/4", "::1/128", "fe80::/10", "fc00::/7"] from rfl]
  simp only [isPrivateIp]
  rw [List.any_eq_true]
  simp only [specBlockedV6, Bool.or_eq_true, decide_eq_true_eq] at hb
  rcases hb with (hb | hb) | hb
  · refine ⟨"::1/128", by decide, ?_⟩
    rw [if_neg (not_not_intro (by decide : ("::1/128" : String).data.contains '/' = true)),
      hv6, if_pos rfl, hip,
      show ("::1/128" : String).data = "::1".data ++ '/' :: "128".data from rfl,
      isIPv6InCidr_agree l _ _ gs [0, 0, 0, 0, 0, 0, 0, 1] 128 hp (by decide)
        (by norm_num) (by decide) (by decide) (by decide) (by decide)]
    subst hb
    exact decide_eq_true (fun i _ => rfl)
  · refine ⟨"fe80::/10", by decide, ?_⟩
    rw [if_neg (not_not_intro (by decide : ("fe80::/10" : String).data.contains '/' = true)),
      hv6, if_pos rfl, hip,
      show ("fe80::/10" : String).data = "fe80::".data ++ '/' :: "10".data from rfl,
      isIPv6InCidr_agree l _ _ gs [65152, 0, 0, 0, 0, 0, 0, 0] 10 hp (by decide)
        (by norm_num) (by decide) (by decide) (by decide) (by decide)]
    refine decide_eq_true (prefixAgree_head (k := 6) (by norm_num) _ _ ?_)
    show gs.headD 0 / 2 ^ 6 = 65152 / 2 ^ 6
    rw [show (2 : Nat) ^ 6 = 64 from by norm_num, hb]
  · refine ⟨"fc00::/7", by decide, ?_⟩
    rw [if_neg (not_not_intro (by decide : ("fc00::/7" : String).data.contains '/' = true)),
      hv6, if_pos rfl, hip,
      show ("fc00::/7" : String).data = "fc00::".data ++ '/' :: "7".data from rfl,
      isIPv6InCidr_agree l _ _ gs [64512, 0, 0, 0, 0, 0, 0, 0] 7 hp (by decide)
        (by norm_num) (by decide) (by decide) (by decide) (by decide)]
    refine decide_eq_true (prefixAgree_head (k := 9) (by norm_num) _ _ ?_)
    show gs.headD 0 / 2 ^ 9 = 64512 / 2 ^ 9
    rw [show (2 : Nat) ^ 9 = 512 from by norm_num, hb]

/-! ## Lemmas: the adapter loop -/

/-- Shape of a non-redirect answer: one transaction, some final outcome. -/
theorem secLoop_nonred (rules : SsrRulesConfig) (dns : String → Option String)
    (resolve : String → String → String) (script : Nat → HttpResponse)
    (origVS : Option (Nat → Bool)) (maxR remaining callIdx : Nat) (url : String)
    (method : Option String) (hred : isRedirectResp (script callIdx) = false) :
    ∃ out, secLoop rules dns resolve script origVS maxR remaining callIdx url method =
      ([.call url method (script callIdx).status], out) := by
  have hni : ¬ isRedirectResp (script callIdx) = true := by
    rw [hred]; exact Bool.false_ne_true
  cases remaining with
  | zero =>
    simp only [secLoop]
    rw [if_neg hni]
    cases origVS with
    | none => exact ⟨_, rfl⟩
    | some f =>
      dsimp only
      by_cases hf : f (script callIdx).status
      · rw [if_pos hf]; exact ⟨_, rfl⟩
      · rw [if_neg hf]; exact ⟨_, rfl⟩
  | succ r =>
    simp only [secLoop]
    rw [if_neg hni]
    cases origVS with
    | none => exact ⟨_, rfl⟩
    | some f =>
      dsimp only
      by_cases hf : f (script callIdx).status
      · rw [if_pos hf]; exact ⟨_, rfl⟩
      · rw [if_neg hf]; exact ⟨_, rfl⟩

/-- Shape of a redirect at the exhausted hop budget. -/
theorem secLoop_zeroRed (rules : SsrRulesConfig) (dns : String → Option String)
    (resolve : String → String → String) (script : Nat → HttpResponse)
    (origVS : Option (Nat → Bool)) (maxR callIdx : Nat) (url : String)
    (method : Option String) (hred : isRedirectResp (script callIdx) = true) :
    secLoop rules dns resolve script origVS maxR 0 callIdx url method =
      ([.call url method (script callIdx).status], .maxRedirectsError maxR) := by
  simp only [secLoop]
  rw [if_pos hred]

/-- Shape of a redirect whose resolved target is rejected. -/
theorem secLoop_rej (rules : SsrRulesConfig) (dns : String → Option String)
    (resolve : String → String → String) (script : Nat → HttpResponse)
    (origVS : Option (Nat → Bool)) (maxR r callIdx : Nat) (url : String)
    (method : Option String) (rr : RejectReason)
    (hred : isRedirectResp (script callIdx) = true)
    (hv : validateUrl rules dns (resolve ((script callIdx).location.getD "") url)
      = .rejected rr) :
    secLoop rules dns resolve script origVS maxR (r + 1) callIdx url method =
      ([.call url method (script callIdx).status,
        .validate (resolve ((script callIdx).location.getD "") url) (.rejected rr)],
       .ssrfError rr) := by
  simp only [secLoop]
  rw [if_pos hred, hv]

/-- Shape of a redirect whose resolved target is accepted: the loop
re-enters on the target with the possibly rewritten method. -/
theorem secLoop_acc (rules : SsrRulesConfig) (dns : String → Option String)
    (resolve : String → String → String) (script : Nat → HttpResponse)
    (origVS : Option (Nat → Bool)) (maxR r callIdx : Nat) (url : String)
    (method : Option String)
    (hred : isRedirectResp (script callIdx) = true)
    (hv : validateUrl rules dns (resolve ((script callIdx).location.getD "") url)
      = .accepted) :
    secLoop rules dns resolve script origVS maxR (r + 1) callIdx url method =
      (.call url method (script callIdx).status ::
        .validate (resolve ((script callIdx).location.getD "") url) .accepted ::
        (secLoop rules dns resolve script origVS maxR r (callIdx + 1)
          (resolve ((script callIdx).location.getD "") url)
          (if (script callIdx).status = 303 then some "GET" else method)).1,
       (secLoop rules dns resolve script origVS maxR r (callIdx + 1)
          (resolve ((script callIdx).location.getD "") url)
          (if (script callIdx).status = 303 then some "GET" else method)).2) := by
  simp only [secLoop]
  rw [if_pos hred, hv]

/-- The validated-before-called property, trivially, for a result whose
trace is one transaction. -/
theorem validated_single (w : String) (mo : Option String) (st : Nat)
    (res : List FetchEvent × FetchOutcome)
    (hres : res.1 = [FetchEvent.call w mo st]) :
    (∀ i u m s, res.1.get? i = some (.call u m s) →
      u = w ∨ ∃ j, j < i ∧ res.1.get? j = some (.validate u .accepted)) ∧
    (∀ i u r, res.1.get? i = some (.validate u (.rejected r)) →
      i + 1 = res.1.length ∧ res.2 = .ssrfError r) := by
  constructor
  · intro i u m s h
    rw [hres] at h
    cases i with
    | zero =>
      rw [List.get?_cons_zero] at h
      simp only [Option.some.injEq, FetchEvent.call.injEq] at h
      exact Or.inl h.1.symm
    | succ i =>
      rw [List.get?_cons_succ, List.get?_nil] at h
      exact Option.noConfusion h
  · intro i u r h
    rw [hres] at h
    cases i with
    | zero =>
      rw [List.get?_cons_zero] at h
      exact Option.noConfusion h fun hh => FetchEvent.noConfusion hh
    | succ i =>
      rw [List.get?_cons_succ, List.get?_nil] at h
      exact Option.noConfusion h

/-- The validated-before-called property for a hop whose redirect target is
rejected: one transaction, then the rejected validation as final event. -/
theorem validated_rejpair (w tgt : String) (mo : Option String) (st : Nat)
    (rr : RejectReason) (res : List FetchEvent × FetchOutcome)
    (hres : res = ([.call w mo st, .validate tgt (.rejected rr)], .ssrfError rr)) :
    (∀ i u m s, res.1.get? i = some (.call u m s) →
      u = w ∨ ∃ j, j < i ∧ res.1.get? j = some (.validate u .accepted)) ∧
    (∀ i u r, res.1.get? i = some (.validate u (.rejected r)) →
      i + 1 = res.1.length ∧ res.2 = .ssrfError r) := by
  subst hres
  constructor
  · intro i u m s h
    cases i with
    | zero =>
      rw [List.get?_cons_zero] at h
      simp only [Option.some.injEq, FetchEvent.call.injEq] at h
      exact Or.inl h.1.symm
    | succ i =>
      cases i with
      | zero =>
        rw [List.get?_cons_succ, List.get?_cons_zero] at h
        exact Option.noConfusion h fun hh => FetchEvent.noConfusion hh
      | succ i =>
        rw [List.get?_cons_succ, List.get?_cons_succ, List.get?_nil] at h
        exact Option.noConfusion h
  · intro i u r h
    cases i with
    | zero =>
      rw [List.get?_cons_zero] at h
      exact Option.noConfusion h fun hh => FetchEvent.noConfusion hh
    | succ i =>
      cases i with
      | zero =>
        rw [List.get?_cons_succ, List.get?_cons_zero] at h
        simp only [Option.some.injEq, FetchEvent.validate.injEq] at h
        obtain ⟨hu, hv⟩ := h
        simp only [Verdict.rejected.injEq] at hv
        exact ⟨rfl, by rw [hv]⟩
      | succ i =>
        rw [List.get?_cons_succ, List.get?_cons_succ, List.get?_nil] at h
        exact Option.noConfusion h

/-- In every loop trace, each transaction is for the loop's entry URL or
for a URL validated and accepted earlier in the trace, and a rejected
validation is the last event, with its rejection as the loop outcome. -/
theorem secLoop_validated (rules : SsrRulesConfig) (dns : String → Option String)
    (resolve : String → String → String) (script : Nat → HttpResponse)
    (origVS : Option (Nat → Bool)) (maxR : Nat) :
    ∀ (remaining callIdx : Nat) (w : String) (mo : Option String),
    (∀ i u m s,
      (secLoop rules dns resolve script origVS maxR remaining callIdx w mo).1.get? i
        = some (.call u m s) →
      u = w ∨ ∃ j, j < i ∧
        (secLoop rules dns resolve script origVS maxR remaining callIdx w mo).1.get? j
          = some (.validate u .accepted)) ∧
    (∀ i u r,
      (secLoop rules dns resolve script origVS maxR remaining callIdx w mo).1.get? i
        = some (.validate u (.rejected r)) →
      i + 1 = (secLoop rules dns resolve script origVS maxR remaining callIdx w mo).1.length ∧
      (secLoop rules dns resolve script origVS maxR remaining callIdx w mo).2
        = .ssrfError r) := by
  intro remaining
  induction remaining with
  | zero =>
    intro k w mo
    by_cases hred : isRedirectResp (script k) = true
    · exact validated_single w mo (script k).status _
        (congrArg Prod.fst (secLoop_zeroRed rules dns resolve script origVS maxR k w mo hred))
    · obtain ⟨out, heq⟩ := secLoop_nonred rules dns resolve script origVS maxR 0 k w mo
        (Bool.eq_false_iff.mpr hred)
      exact validated_single w mo (script k).status _ (congrArg Prod.fst heq)
  | succ r ih =>
    intro k w mo
    by_cases hred : isRedirectResp (script k) = true
    · cases hv : validateUrl rules dns (resolve ((script k).location.getD "") w) with
      | rejected rr =>
        exact validated_rejpair w _ mo (script k).status rr _
          (secLoop_rej rules dns resolve script origVS maxR r k w mo rr hred hv)
      | accepted =>
        have heq := secLoop_acc rules dns resolve script origVS maxR r k w mo hred hv
        have IH := ih (k + 1) (resolve ((script k).location.getD "") w)
          (if (script k).status = 303 then some "GET" else mo)
        rw [heq]
        constructor
        · intro i u m s h
          cases i with
          | zero =>
            rw [List.get?_cons_zero] at h
            simp only [Option.some.injEq, FetchEvent.call.injEq] at h
            exact Or.inl h.1.symm
          | succ i =>
            cases i with
            | zero =>
              rw [List.get?_cons_succ, List.get?_cons_zero] at h
              exact Option.noConfusion h fun hh => FetchEvent.noConfusion hh
            | succ i =>
              rw [List.get?_cons_succ, List.get?_cons_succ] at h
              rcases IH.1 i u m s h with hu | ⟨j, hj, hjv⟩
              · refine Or.inr ⟨1, by omega, ?_⟩
                rw [List.get?_cons_succ, List.get?_cons_zero, hu]
              · refine Or.inr ⟨j + 2, by omega, ?_⟩
                rw [List.get?_cons_succ, List.get?_cons_succ]
                exact hjv
        · intro i u r' h
          cases i with
          | zero =>
            rw [List.get?_cons_zero] at h
            exact Option.noConfusion h fun hh => FetchEvent.noConfusion hh
          | succ i =>
            cases i with
            | zero =>
              rw [List.get?_cons_succ, List.get?_cons_zero] at h
              simp only [Option.some.injEq, FetchEvent.validate.injEq] at h
              exact absurd h.2 (fun hh => Verdict.noConfusion hh)
            | succ i =>
              rw [List.get?_cons_succ, List.get?_cons_succ] at h
              obtain ⟨hlen, hout⟩ := IH.2 i u r' h
              refine ⟨?_, hout⟩
              simp only [List.length_cons]
              omega
    · obtain ⟨out, heq⟩ := secLoop_nonred rules dns resolve script origVS maxR (r + 1) k w mo
        (Bool.eq_false_iff.mpr hred)
      exact validated_single w mo (script k).status _ (congrArg Prod.fst heq)

/-! ## Claim C1 -/

/-- Claim C1.  For every fetch with a nonempty effective URL, every
transaction the adapter issues — the initial URL and each followed
redirect target — is for a URL that was validated and accepted earlier in
that same fetch's trace; and a rejected validation (e.g. a private
redirect target) is the final event of the trace, the fetch aborting with
exactly that rejection, so the transport is never invoked for the rejected
hop. -/
theorem claim_C1 (rules : SecurityRules) (dns : String → Option String)
    (resolve : String → String → String) (script : Nat → HttpResponse)
    (cfg : ReqConfig) (hne : initialUrl resolve cfg ≠ "") :
    (∀ i u m s,
      (adapterRun rules dns resolve script cfg).1.get? i = some (.call u m s) →
      ∃ j, j < i ∧ (adapterRun rules dns resolve script cfg).1.get? j
        = some (.validate u .accepted)) ∧
    (∀ i u r,
      (adapterRun rules dns resolve script cfg).1.get? i
        = some (.validate u (.rejected r)) →
      i + 1 = (adapterRun rules dns resolve script cfg).1.length ∧
      (adapterRun rules dns resolve script cfg).2 = .ssrfError r) := by
  simp only [adapterRun]
  rw [if_neg hne]
  cases hv : validateUrl rules.ssrf dns (initialUrl resolve cfg) with
  | rejected r0 =>
    dsimp only
    constructor
    · intro i u m s h
      cases i with
      | zero =>
        rw [List.get?_cons_zero] at h
        exact Option.noConfusion h fun hh => FetchEvent.noConfusion hh
      | succ i =>
        rw [List.get?_cons_succ, List.get?_nil] at h
        exact Option.noConfusion h
    · intro i u r h
      cases i with
      | zero =>
        rw [List.get?_cons_zero] at h
        simp only [Option.some.injEq, FetchEvent.validate.injEq,
          Verdict.rejected.injEq] at h
        refine ⟨rfl, ?_⟩
        rw [← h.2]
      | succ i =>
        rw [List.get?_cons_succ, List.get?_nil] at h
        exact Option.noConfusion h
  | accepted =>
    dsimp only
    have H := secLoop_validated rules.ssrf dns resolve script cfg.validateStatus
      (cfg.maxRedirects.getD rules.ssrf.maxRedirects)
      (cfg.maxRedirects.getD rules.ssrf.maxRedirects) 0 (initialUrl resolve cfg)
      cfg.method
    constructor
    · intro i u m s h
      cases i with
      | zero =>
        rw [List.get?_cons_zero] at h
        exact Option.noConfusion h fun hh => FetchEvent.noConfusion hh
      | succ i =>
        rw [List.get?_cons_succ] at h
        rcases H.1 i u m s h with hu | ⟨j, hj, hjv⟩
        · exact ⟨0, by omega, by rw [List.get?_cons_zero, hu]⟩
        · exact ⟨j + 1, by omega, by rw [List.get?_cons_succ]; exact hjv⟩
    · intro i u r h
      cases i with
      | zero =>
        rw [List.get?_cons_zero] at h
        simp only [Option.some.injEq, FetchEvent.validate.injEq] at h
        exact absurd h.2 (fun hh => Verdict.noConfusion hh)
      | succ i =>
        rw [List.get?_cons_succ] at h
        obtain ⟨hlen, hout⟩ := H.2 i u r h
        refine ⟨?_, hout⟩
        simp only [List.length_cons]
        omega

/-- Claim C1, witness: a 301 hop towards the loopback-resolving host
`evil` ends the trace at the rejected validation, the fetch aborting with
that rejection. -/
theorem claim_C1_witness :
    2 + 1 = (adapterRun securityRulesConfig dnsW resolveW scriptW cfgW).1.length ∧
    (adapterRun securityRulesConfig dnsW resolveW scriptW cfgW).2 =
      .ssrfError (.privateIp "127.0.0.1" "evil") :=
  (claim_C1 securityRulesConfig dnsW resolveW scriptW cfgW (by decide)).2 2
    "http://evil" (.privateIp "127.0.0.1" "evil") (by decide)

theorem callsOf_nil : callsOf [] = [] := rfl

theorem callsOf_call (u : String) (m : Option String) (s : Nat) (l : List FetchEvent) :
    callsOf (.call u m s :: l) = (u, m, s) :: callsOf l := rfl

theorem callsOf_validate (u : String) (v : Verdict) (l : List FetchEvent) :
    callsOf (.validate u v :: l) = callsOf l := rfl

/-- The loop with hop budget `remaining` issues at most `remaining + 1`
transactions. -/
theorem secLoop_calls_le (rules : SsrRulesConfig) (dns : String → Option String)
    (resolve : String → String → String) (script : Nat → HttpResponse)
    (origVS : Option (Nat → Bool)) (maxR : Nat) :
    ∀ (remaining callIdx : Nat) (w : String) (mo : Option String),
      (callsOf (secLoop rules dns resolve script origVS maxR remaining callIdx w mo).1).length
        ≤ remaining + 1 := by
  intro remaining
  induction remaining with
  | zero =>
    intro k w mo
    by_cases hred : isRedirectResp (script k) = true
    · rw [secLoop_zeroRed rules dns resolve script origVS maxR k w mo hred]
      exact Nat.le_refl 1
    · obtain ⟨out, heq⟩ := secLoop_nonred rules dns resolve script origVS maxR 0 k w mo
        (Bool.eq_false_iff.mpr hred)
      rw [heq]
      exact Nat.le_refl 1
  | succ r ih =>
    intro k w mo
    by_cases hred : isRedirectResp (script k) = true
    · cases hv : validateUrl rules dns (resolve ((script k).location.getD "") w) with
      | rejected rr =>
        rw [secLoop_rej rules dns resolve script origVS maxR r k w mo rr hred hv]
        exact Nat.succ_le_succ (Nat.zero_le _)
      | accepted =>
        rw [secLoop_acc rules dns resolve script origVS maxR r k w mo hred hv]
        dsimp only
        rw [callsOf_call, callsOf_validate, List.length_cons]
        exact Nat.succ_le_succ (ih (k + 1) _ _)
    · obtain ⟨out, heq⟩ := secLoop_nonred rules dns resolve script origVS maxR (r + 1) k w mo
        (Bool.eq_false_iff.mpr hred)
      rw [heq]
      exact Nat.succ_le_succ (Nat.zero_le _)

/-- On an everlasting redirect chain whose every hop is accepted, the loop
spends its whole budget: `remaining + 1` transactions and the
max-redirects failure. -/
theorem secLoop_chain (rules : SsrRulesConfig) (dns : String → Option String)
    (resolve : String → String → String) (script : Nat → HttpResponse)
    (origVS : Option (Nat → Bool)) (maxR : Nat) (u0 : String)
    (hred : ∀ n, isRedirectResp (script n) = true)
    (hacc : ∀ k, validateUrl rules dns (chainUrl resolve script u0 k) = .accepted) :
    ∀ (remaining k : Nat) (mo : Option String),
      (secLoop rules dns resolve script origVS maxR remaining k
        (chainUrl resolve script u0 k) mo).2 = .maxRedirectsError maxR ∧
      (callsOf (secLoop rules dns resolve script origVS maxR remaining k
        (chainUrl resolve script u0 k) mo).1).length = remaining + 1 := by
  intro remaining
  induction remaining with
  | zero =>
    intro k mo
    rw [secLoop_zeroRed rules dns resolve script origVS maxR k _ mo (hred k)]
    exact ⟨rfl, rfl⟩
  | succ r ih =>
    intro k mo
    have htgt : resolve ((script k).location.getD "") (chainUrl resolve script u0 k)
        = chainUrl resolve script u0 (k + 1) := rfl
    have hv : validateUrl rules dns
        (resolve ((script k).location.getD "") (chainUrl resolve script u0 k))
          = .accepted := by
      rw [htgt]
      exact hacc (k + 1)
    rw [secLoop_acc rules dns resolve script origVS maxR r k _ mo (hred k) hv]
    dsimp only
    rw [htgt]
    obtain ⟨hout, hlen⟩ := ih (k + 1) (if (script k).status = 303 then some "GET" else mo)
    exact ⟨hout, by rw [callsOf_call, callsOf_validate, List.length_cons, hlen]⟩

/-! ## Claim C5 -/

/-- Claim C5.  A fetch whose redirect chain never ends (every answer is a
redirect and every resolved hop is accepted) fails with the max-redirects
error after spending the whole hop budget, issuing exactly
`maxRedirects + 1` transactions; and unconditionally — for every rules
configuration, every oracle and every request — the adapter issues at most
`maxRedirects + 1` transactions (the loop always terminates, its variant
being the remaining hop budget). -/
theorem claim_C5 (rules : SecurityRules) (dns : String → Option String)
    (resolve : String → String → String) (script : Nat → HttpResponse)
    (cfg : ReqConfig) (hne : initialUrl resolve cfg ≠ "")
    (hred : ∀ n, isRedirectResp (script n) = true)
    (hacc : ∀ k, validateUrl rules.ssrf dns
      (chainUrl resolve script (initialUrl resolve cfg) k) = .accepted) :
    (adapterRun rules dns resolve script cfg).2 =
      .maxRedirectsError (cfg.maxRedirects.getD rules.ssrf.maxRedirects) ∧
    (callsOf (adapterRun rules dns resolve script cfg).1).length =
      cfg.maxRedirects.getD rules.ssrf.maxRedirects + 1 ∧
    ∀ (rules' : SecurityRules) (dns' : String → Option String)
      (resolve' : String → String → String) (script' : Nat → HttpResponse)
      (cfg' : ReqConfig),
      (callsOf (adapterRun rules' dns' resolve' script' cfg').1).length ≤
        cfg'.maxRedirects.getD rules'.ssrf.maxRedirects + 1 := by
  have hv0 : validateUrl rules.ssrf dns (initialUrl resolve cfg) = .accepted := hacc 0
  have H := secLoop_chain rules.ssrf dns resolve script cfg.validateStatus
    (cfg.maxRedirects.getD rules.ssrf.maxRedirects) (initialUrl resolve cfg) hred hacc
    (cfg.maxRedirects.getD rules.ssrf.maxRedirects) 0 cfg.method
  refine ⟨?_, ?_, ?_⟩
  · simp only [adapterRun]
    rw [if_neg hne, hv0]
    exact H.1
  · simp only [adapterRun]
    rw [if_neg hne, hv0]
    dsimp only
    rw [callsOf_validate]
    exact H.2
  · intro rules' dns' resolve' script' cfg'
    simp only [adapterRun]
    by_cases hne' : initialUrl resolve' cfg' = ""
    · rw [if_pos hne']
      exact Nat.succ_le_succ (Nat.zero_le _)
    · rw [if_neg hne']
      cases hv : validateUrl rules'.ssrf dns' (initialUrl resolve' cfg') with
      | rejected r0 =>
        dsimp only
        exact Nat.zero_le _
      | accepted =>
        dsimp only
        rw [callsOf_validate]
        exact secLoop_calls_le rules'.ssrf dns' resolve' script' cfg'.validateStatus _ _ 0 _ _

/-- Claim C5, witness: an endless `301` chain under the shipped limit `5`
makes exactly `6` transactions and fails with the max-redirects error. -/
theorem claim_C5_witness :
    (adapterRun securityRulesConfig dnsW resolveW scriptR cfgW).2 =
      .maxRedirectsError 5 ∧
    (callsOf (adapterRun securityRulesConfig dnsW resolveW scriptR cfgW).1).length = 6 := by
  have hchain : ∀ k, chainUrl resolveW scriptR (initialUrl resolveW cfgW) k = "http://a" := by
    intro k
    cases k with
    | zero => rfl
    | succ k => rfl
  have h := claim_C5 securityRulesConfig dnsW resolveW scriptR cfgW (by decide)
    (fun n => rfl) (fun k => by rw [hchain k]; decide)
  exact ⟨h.1, h.2.1⟩

/-- The first transaction of a loop run is for the entry URL, with the
entry method and the scripted status. -/
theorem secLoop_calls_head (rules : SsrRulesConfig) (dns : String → Option String)
    (resolve : String → String → String) (script : Nat → HttpResponse)
    (origVS : Option (Nat → Bool)) (maxR remaining callIdx : Nat) (w : String)
    (mo : Option String) :
    ∃ tail, callsOf (secLoop rules dns resolve script origVS maxR remaining callIdx w mo).1
      = (w, mo, (script callIdx).status) :: tail := by
  cases remaining with
  | zero =>
    by_cases hred : isRedirectResp (script callIdx) = true
    · rw [secLoop_zeroRed rules dns resolve script origVS maxR callIdx w mo hred]
      exact ⟨[], rfl⟩
    · obtain ⟨out, heq⟩ := secLoop_nonred rules dns resolve script origVS maxR 0 callIdx w mo
        (Bool.eq_false_iff.mpr hred)
      rw [heq]
      exact ⟨[], rfl⟩
  | succ r =>
    by_cases hred : isRedirectResp (script callIdx) = true
    · cases hv : validateUrl rules dns (resolve ((script callIdx).location.getD "") w) with
      | rejected rr =>
        rw [secLoop_rej rules dns resolve script origVS maxR r callIdx w mo rr hred hv]
        exact ⟨[], rfl⟩
      | accepted =>
        rw [secLoop_acc rules dns resolve script origVS maxR r callIdx w mo hred hv]
        exact ⟨_, rfl⟩
    · obtain ⟨out, heq⟩ := secLoop_nonred rules dns resolve script origVS maxR (r + 1) callIdx
        w mo (Bool.eq_false_iff.mpr hred)
      rw [heq]
      exact ⟨[], rfl⟩

/-- Between consecutive transactions of a loop run, the method is
rewritten to `GET` after a `303` and preserved otherwise. -/
theorem secLoop_steps (rules : SsrRulesConfig) (dns : String → Option String)
    (resolve : String → String → String) (script : Nat → HttpResponse)
    (origVS : Option (Nat → Bool)) (maxR : Nat) :
    ∀ (remaining callIdx : Nat) (w : String) (mo : Option String) (i : Nat)
      (u : String) (m : Option String) (s : Nat) (u' : String) (m' : Option String)
      (s' : Nat),
      (callsOf (secLoop rules dns resolve script origVS maxR remaining callIdx w mo).1).get? i
        = some (u, m, s) →
      (callsOf (secLoop rules dns resolve script origVS maxR remaining callIdx w mo).1).get?
        (i + 1) = some (u', m', s') →
      m' = if s = 303 then some "GET" else m := by
  intro remaining
  induction remaining with
  | zero =>
    intro k w mo i u m s u' m' s' h1 h2
    by_cases hred : isRedirectResp (script k) = true
    · rw [secLoop_zeroRed rules dns resolve script origVS maxR k w mo hred] at h2
      rw [show callsOf ([.call w mo (script k).status], (.maxRedirectsError maxR :
          FetchOutcome)).1 = [(w, mo, (script k).status)] from rfl,
        List.get?_cons_succ, List.get?_nil] at h2
      exact Option.noConfusion h2
    · obtain ⟨out, heq⟩ := secLoop_nonred rules dns resolve script origVS maxR 0 k w mo
        (Bool.eq_false_iff.mpr hred)
      rw [heq] at h2
      rw [show callsOf (([.call w mo (script k).status], out) :
          List FetchEvent × FetchOutcome).1 = [(w, mo, (script k).status)] from rfl,
        List.get?_cons_succ, List.get?_nil] at h2
      exact Option.noConfusion h2
  | succ r ih =>
    intro k w mo i u m s u' m' s' h1 h2
    by_cases hred : isRedirectResp (script k) = true
    · cases hv : validateUrl rules dns (resolve ((script k).location.getD "") w) with
      | rejected rr =>
        rw [secLoop_rej rules dns resolve script origVS maxR r k w mo rr hred hv] at h2
        rw [show callsOf ([.call w mo (script k).status,
            .validate (resolve ((script k).location.getD "") w) (.rejected rr)],
            (.ssrfError rr : FetchOutcome)).1 = [(w, mo, (script k).status)] from rfl,
          List.get?_cons_succ, List.get?_nil] at h2
        exact Option.noConfusion h2
      | accepted =>
        have heq := secLoop_acc rules dns resolve script origVS maxR r k w mo hred hv
        rw [heq] at h1 h2
        dsimp only at h1 h2
        rw [callsOf_call, callsOf_validate] at h1 h2
        cases i with
        | zero =>
          rw [List.get?_cons_zero] at h1
          rw [List.get?_cons_succ] at h2
          obtain ⟨tail, hhead⟩ := secLoop_calls_head rules dns resolve script origVS maxR
            r (k + 1) (resolve ((script k).location.getD "") w)
            (if (script k).status = 303 then some "GET" else mo)
          rw [hhead, List.get?_cons_zero] at h2
          simp only [Option.some.injEq, Prod.mk.injEq] at h1 h2
          rw [← h2.2.1, ← h1.2.2, ← h1.2.1]
        | succ i =>
          rw [List.get?_cons_succ] at h1 h2
          exact ih (k + 1) (resolve ((script k).location.getD "") w)
            (if (script k).status = 303 then some "GET" else mo) i u m s u' m' s' h1 h2
    · obtain ⟨out, heq⟩ := secLoop_nonred rules dns resolve script origVS maxR (r + 1) k w mo
        (Bool.eq_false_iff.mpr hred)
      rw [heq] at h2
      rw [show callsOf (([.call w mo (script k).status], out) :
          List FetchEvent × FetchOutcome).1 = [(w, mo, (script k).status)] from rfl,
        List.get?_cons_succ, List.get?_nil] at h2
      exact Option.noConfusion h2

/-! ## Claim C9 -/

/-- Claim C9.  For every followed redirect of every fetch — whenever the
adapter issues an `i`-th and an `(i+1)`-th transaction — the later
transaction's method is `GET` if the earlier one answered `303`, and the
earlier transaction's method unchanged for every other followed status
(`301`, `302`, `307`, `308`); in particular a `307` answer to a `POST` is
re-issued as `POST`. -/
theorem claim_C9 (rules : SecurityRules) (dns : String → Option String)
    (resolve : String → String → String) (script : Nat → HttpResponse)
    (cfg : ReqConfig) :
    ∀ (i : Nat) (u : String) (m : Option String) (s : Nat) (u' : String)
      (m' : Option String) (s' : Nat),
      (callsOf (adapterRun rules dns resolve script cfg).1).get? i = some (u, m, s) →
      (callsOf (adapterRun rules dns resolve script cfg).1).get? (i + 1)
        = some (u', m', s') →
      m' = if s = 303 then some "GET" else m := by
  intro i u m s u' m' s' h1 h2
  simp only [adapterRun] at h1 h2
  by_cases hne : initialUrl resolve cfg = ""
  · rw [if_pos hne] at h2
    rw [show callsOf (([.call (initialUrl resolve cfg) cfg.method (script 0).status],
        (.ok (script 0) : FetchOutcome)) : List FetchEvent × FetchOutcome).1
        = [(initialUrl resolve cfg, cfg.method, (script 0).status)] from rfl,
      List.get?_cons_succ, List.get?_nil] at h2
    exact Option.noConfusion h2
  · rw [if_neg hne] at h1 h2
    cases hv : validateUrl rules.ssrf dns (initialUrl resolve cfg) with
    | rejected r0 =>
      rw [hv] at h2
      dsimp only at h2
      rw [callsOf_validate, callsOf_nil, List.get?_nil] at h2
      exact Option.noConfusion h2
    | accepted =>
      rw [hv] at h1 h2
      dsimp only at h1 h2
      rw [callsOf_validate] at h1 h2
      exact secLoop_steps rules.ssrf dns resolve script cfg.validateStatus _ _ 0 _ _
        i u m s u' m' s' h1 h2

/-- Claim C9, witness: a `303` answer to a `POST` is followed up with
`GET`. -/
theorem claim_C9_witness :
    (callsOf (adapterRun securityRulesConfig dnsW resolveW script303 cfgW).1).get? 1
      = some ("http://a", some "GET", 200) ∧
    some "GET" = if (303 : Nat) = 303 then some "GET" else some "POST" :=
  ⟨by decide,
   claim_C9 securityRulesConfig dnsW resolveW script303 cfgW 0 "http://a" (some "POST")
     303 "http://a" (some "GET") 200 (by decide) (by decide)⟩

/-! ## Claim C10 -/

/-- The loop reads the rules only through `validateUrl`. -/
theorem secLoop_congr (r1 r2 : SsrRulesConfig) (dns : String → Option String)
    (resolve : String → String → String) (script : Nat → HttpResponse)
    (origVS : Option (Nat → Bool)) (maxR : Nat)
    (h : ∀ u, validateUrl r1 dns u = validateUrl r2 dns u) :
    ∀ (remaining callIdx : Nat) (w : String) (mo : Option String),
      secLoop r1 dns resolve script origVS maxR remaining callIdx w mo =
        secLoop r2 dns resolve script origVS maxR remaining callIdx w mo := by
  intro remaining
  induction remaining with
  | zero => intro k w mo; simp only [secLoop]
  | succ r ih =>
    intro k w mo
    simp only [secLoop]
    rw [h]
    simp only [ih]

/-- Claim C10.  The adapter's observable behavior — the full trace and the
outcome — is unchanged by the `validateRedirectChain` flag: the adapter
never reads it (of the rules it reads only `maxRedirects`, and the policy
engine reads only `allowedHosts` and `blockedIpRanges`), so per-hop
re-validation happens unconditionally and cannot be disabled. -/
theorem claim_C10 (rules : SecurityRules) (flag : Bool) (dns : String → Option String)
    (resolve : String → String → String) (script : Nat → HttpResponse)
    (cfg : ReqConfig) :
    adapterRun { ssrf := { rules.ssrf with validateRedirectChain := flag } }
        dns resolve script cfg =
      adapterRun rules dns resolve script cfg := by
  obtain ⟨⟨ah, bir, mr, ap, mrs, vrc⟩⟩ := rules
  have h : ∀ u, validateUrl ⟨ah, bir, mr, ap, mrs, flag⟩ dns u
      = validateUrl ⟨ah, bir, mr, ap, mrs, vrc⟩ dns u := fun u => rfl
  simp only [adapterRun]
  rw [h]
  rw [secLoop_congr ⟨ah, bir, mr, ap, mrs, flag⟩ ⟨ah, bir, mr, ap, mrs, vrc⟩ dns resolve
    script cfg.validateStatus (cfg.maxRedirects.getD mr) h (cfg.maxRedirects.getD mr) 0
    (initialUrl resolve cfg) cfg.method]

/-! ## Claim C7 -/

/-- Claim C7, counterexample.  `"xyz::"` is not a parseable IPv6 literal,
yet `isIPv6InCidr "xyz::" "::/128"` returns `true`: the unparseable group
`xyz` becomes `NaN` and is coerced to `0` by the bitwise comparison, so
the garbage literal compares equal to `::`. -/
theorem claim_C7_counterexample :
    isIPv6InCidr "xyz::" "::/128" = true ∧ parseIPv6 "xyz::".data = none := by
  decide

/-- Claim C7, amended.  For valid colon-hex IPv6 literals `ip` and `net`
and a prefix length `m ≤ 128` (decimal numeral `bits`), `isIPv6InCidr`
expands both sides to eight 16-bit groups (zero groups inserted for a
double colon) and returns `true` exactly when the leading `m` bits of the
two expansions agree.  For non-parseable inputs the claim's "returns
false on any parse failure" does not hold: unparseable groups are coerced
to `0` (see the counterexample), and only a structurally impossible
expansion (a `"::"` with nine or more colon-chunks) makes the function
return `false` via its exception handler. -/
theorem claim_C7 (ip net bits : List Char) (gs hs : List Nat) (m : Nat)
    (hip : parseIPv6 ip = some gs) (hnet : parseIPv6 net = some hs)
    (hm : m ≤ 128) (hb1 : bits ≠ []) (hb2 : bits.all isDigitC = true)
    (hbv : decVal bits = m) (hns : ∀ x ∈ net, x ≠ '/') :
    isIPv6InCidrC ip (net ++ '/' :: bits) = decide (prefixAgree m gs hs) :=
  isIPv6InCidr_agree ip net bits gs hs m hip hnet hm hb1 hb2 hbv hns

/-- Claim C7, witness: `fe80::1` against `fe80::/10`. -/
theorem claim_C7_witness :
    isIPv6InCidrC "fe80::1".data ("fe80::".data ++ '/' :: "10".data) =
      decide (prefixAgree 10 [65152, 0, 0, 0, 0, 0, 0, 1]
        [65152, 0, 0, 0, 0, 0, 0, 0]) :=
  claim_C7 "fe80::1".data "fe80::".data "10".data
    [65152, 0, 0, 0, 0, 0, 0, 1] [65152, 0, 0, 0, 0, 0, 0, 0] 10
    (by decide) (by decide) (by decide) (by decide) (by decide) (by decide)
    (by decide)

/-! ## Claim C8 -/

/-- Claim C8, counterexample.  The valid IPv6 address `127::1` (eight-group
expansion `127:0:0:0:0:0:0:1`, groups `[0x127, 0, 0, 0, 0, 0, 0, 1]`) lies
in none of the three configured IPv6 ranges (`::1/128`, `fe80::/10`,
`fc00::/7`), yet the classifier blocks it: since the address contains a
colon, even the IPv4 denylist entries are evaluated through the IPv6
matcher, and against `127.0.0.1/8` the network chunk `127.0.0.1` parses as
the single hex group `0x127 = 295`, whose top 8 bits coincide with those
of `127::1`'s first group. -/
theorem claim_C8_counterexample :
    isPrivateIp securityRulesConfig.ssrf.blockedIpRanges "127::1" = true ∧
    parseIPv6 ("127::1".data) = some [295, 0, 0, 0, 0, 0, 0, 1] ∧
    specBlockedV6 [295, 0, 0, 0, 0, 0, 0, 1] = false := by
  decide

/-- Claim C8, amended.  Under the shipped rules the classifier agrees with
the advertised denylist on canonical IPv4 addresses: a dotted quad is
blocked exactly when it lies in `127.0.0.0/8`, `10.0.0.0/8`,
`172.16.0.0/12`, `192.168.0.0/16`, `169.254.0.0/16` or `224.0.0.0/4` (in
particular the entry written `127.0.0.1/8` blocks exactly `127.0.0.0/8`);
and every IPv6 address in `::1/128`, `fe80::/10` or `fc00::/7` is blocked.
The containment is strict for IPv6 — the claimed "iff" fails — because
IPv4 denylist entries are also run through the IPv6 matcher for any
address containing a colon (counterexample: `127::1`). -/
theorem claim_C8 :
    (∀ o1 o2 o3 o4 : Nat, o1 ≤ 255 → o2 ≤ 255 → o3 ≤ 255 → o4 ≤ 255 →
      isPrivateIp securityRulesConfig.ssrf.blockedIpRanges
          ((dottedQuad o1 o2 o3 o4).asString) = specBlockedV4 o1 o2) ∧
    (∀ (l : List Char) (gs : List Nat), parseIPv6 l = some gs →
      specBlockedV6 gs = true →
      isPrivateIp securityRulesConfig.ssrf.blockedIpRanges l.asString = true) :=
  ⟨fun o1 o2 o3 o4 h1 h2 h3 h4 => blockedV4_eval o1 o2 o3 o4 h1 h2 h3 h4,
   fun l gs hp hb => blockedV6_super l gs hp hb⟩

/-- Claim C8, witness: `127.0.0.1` is blocked, `8.8.8.8` is not, and
`fe80::1` is blocked. -/
theorem claim_C8_witness :
    isPrivateIp securityRulesConfig.ssrf.blockedIpRanges
        ((dottedQuad 127 0 0 1).asString) = specBlockedV4 127 0 ∧
    isPrivateIp securityRulesConfig.ssrf.blockedIpRanges
        ((dottedQuad 8 8 8 8).asString) = specBlockedV4 8 8 ∧
    isPrivateIp securityRulesConfig.ssrf.blockedIpRanges
        (("fe80::1".data).asString) = true :=
  ⟨claim_C8.1 127 0 0 1 (by norm_num) (by norm_num) (by norm_num) (by norm_num),
   claim_C8.1 8 8 8 8 (by norm_num) (by norm_num) (by norm_num) (by norm_num),
   claim_C8.2 ("fe80::1".data) [65152, 0, 0, 0, 0, 0, 0, 1] (by decide) (by decide)⟩

/-! ## Claims C2 and C3 -/

/-- Claim C2, counterexample.  The claim requires `http://[::1]` (and
`http://[fe80::1]`) to be rejected with `PrivateAddressBlocked` carrying
the blocked address `::1` (resp. `fe80::1`).  In the code the WHATWG
hostname of such a URL keeps its brackets (`"[::1]"`), `net.isIP` does not
recognize a bracketed string as a literal, so the engine attempts a DNS
lookup of `"[::1]"`; with that lookup failing (as it does for bracketed
names), the rejection reason is the DNS-resolution failure, not
`PrivateAddressBlocked`. -/
theorem claim_C2_counterexample :
    validateUrl securityRulesConfig.ssrf (fun _ => none) "http://[::1]" =
      .rejected (.dnsFailure "[::1]") ∧
    validateUrl securityRulesConfig.ssrf (fun _ => none) "http://[::1]" ≠
      .rejected (.privateIp "::1" "[::1]") ∧
    validateUrl securityRulesConfig.ssrf (fun _ => none) "http://[::1]" ≠
      .rejected (.privateIp "::1" "::1") ∧
    validateUrl securityRulesConfig.ssrf (fun _ => none) "http://[fe80::1]" =
      .rejected (.dnsFailure "[fe80::1]") := by
  decide

/-- Claim C2, amended.  Under the shipped rules: `http://8.8.8.8` is
accepted with no DNS lookup; `https://example.com` is accepted when DNS
resolves it to the public `93.184.216.34`; `http://127.0.0.1` and
`http://169.254.169.254` are rejected with `PrivateAddressBlocked`
carrying exactly the blocked address; `http://[::1]` and
`http://[fe80::1]` are rejected, but — because the bracketed hostname is
not recognized as an IP literal and its DNS lookup fails — with the
DNS-resolution-failure reason naming the bracketed host, not with
`PrivateAddressBlocked`. -/
theorem claim_C2 (dns : String → Option String)
    (hex : dns "example.com" = some "93.184.216.34")
    (h6a : dns "[::1]" = none) (h6b : dns "[fe80::1]" = none) :
    validateUrl securityRulesConfig.ssrf dns "http://8.8.8.8" = .accepted ∧
    validateUrl securityRulesConfig.ssrf dns "https://example.com" = .accepted ∧
    validateUrl securityRulesConfig.ssrf dns "http://127.0.0.1" =
      .rejected (.privateIp "127.0.0.1" "127.0.0.1") ∧
    validateUrl securityRulesConfig.ssrf dns "http://169.254.169.254" =
      .rejected (.privateIp "169.254.169.254" "169.254.169.254") ∧
    validateUrl securityRulesConfig.ssrf dns "http://[::1]" =
      .rejected (.dnsFailure "[::1]") ∧
    validateUrl securityRulesConfig.ssrf dns "http://[fe80::1]" =
      .rejected (.dnsFailure "[fe80::1]") := by
  refine ⟨rfl, ?_, rfl, rfl, ?_, ?_⟩
  · unfold validateUrl
    rw [show parseURL "https://example.com" = some ⟨"https:", "example.com"⟩ from by decide]
    dsimp only
    rw [if_neg (by decide), if_neg (by decide), hex]
    decide
  · unfold validateUrl
    rw [show parseURL "http://[::1]" = some ⟨"http:", "[::1]"⟩ from by decide]
    dsimp only
    rw [if_neg (by decide), if_neg (by decide), h6a]
  · unfold validateUrl
    rw [show parseURL "http://[fe80::1]" = some ⟨"http:", "[fe80::1]"⟩ from by decide]
    dsimp only
    rw [if_neg (by decide), if_neg (by decide), h6b]

/-- Claim C2, witness: the amended claim at a DNS oracle resolving
`example.com` publicly and failing on bracketed names. -/
theorem claim_C2_witness :
    validateUrl securityRulesConfig.ssrf
      (fun h => if h = "example.com" then some "93.184.216.34" else none)
      "http://8.8.8.8" = .accepted ∧
    validateUrl securityRulesConfig.ssrf
      (fun h => if h = "example.com" then some "93.184.216.34" else none)
      "https://example.com" = .accepted ∧
    validateUrl securityRulesConfig.ssrf
      (fun h => if h = "example.com" then some "93.184.216.34" else none)
      "http://127.0.0.1" = .rejected (.privateIp "127.0.0.1" "127.0.0.1") ∧
    validateUrl securityRulesConfig.ssrf
      (fun h => if h = "example.com" then some "93.184.216.34" else none)
      "http://169.254.169.254" =
        .rejected (.privateIp "169.254.169.254" "169.254.169.254") ∧
    validateUrl securityRulesConfig.ssrf
      (fun h => if h = "example.com" then some "93.184.216.34" else none)
      "http://[::1]" = .rejected (.dnsFailure "[::1]") ∧
    validateUrl securityRulesConfig.ssrf
      (fun h => if h = "example.com" then some "93.184.216.34" else none)
      "http://[fe80::1]" = .rejected (.dnsFailure "[fe80::1]") :=
  claim_C2 (fun h => if h = "example.com" then some "93.184.216.34" else none)
    (by decide) (by decide) (by decide)

/-- Claim C3 (code bug).  The claim — and the specification — require any
URL with a scheme outside `allowedSchemes` (e.g. `ftp:`) to be rejected
with `InvalidScheme`.  `validateUrlOrThrow` performs no scheme check at
all (the configured `allowedProtocols` list is never read), so
`ftp://8.8.8.8` — scheme `ftp:`, a public literal host — is accepted, for
every DNS oracle. -/
theorem claim_C3 (dns : String → Option String) :
    validateUrl securityRulesConfig.ssrf dns "ftp://8.8.8.8" = .accepted ∧
    securityRulesConfig.ssrf.allowedProtocols = ["http:", "https:"] ∧
    (parseURL "ftp://8.8.8.8").map UrlParts.protocol = some "ftp:" :=
  ⟨rfl, rfl, rfl⟩

/-! ## Claim C4 -/

/-- Claim C4, counterexample.  The claim's category (i) — dotted decimal
with four octets in `[0,255]`, each octet re-parsed as decimal with
leading zeros stripped — requires `normalizeIPv4 "010.0.0.1" = "10.0.0.1"`,
and its category (ii) — a bare decimal integer in `(0, 2^32)` — requires
`normalizeIPv4 "4294967295" = "255.255.255.255"`.  The code instead sends
any string starting with `'0'` (other than `"0"`) through
`parseInt(_, 8)`, yielding `"0.0.0.8"` for the first input, and its
decimal branch requires the value to be strictly below `0xFFFFFFFF`
(`2^32 − 1`), rejecting the second. -/
theorem claim_C4_counterexample :
    normalizeIPv4 "010.0.0.1" = some "0.0.0.8" ∧
    normalizeIPv4 "010.0.0.1" ≠ some "10.0.0.1" ∧
    normalizeIPv4 "4294967295" = none ∧
    0 < (4294967295 : Nat) ∧ (4294967295 : Nat) < 2 ^ 32 := by
  decide

/-- Claim C4, amended and scoped to the exactly-modelled input fragment.
On every string built only from decimal digits and dots whose longest
octal-digit prefix denotes a value below `2^53` (so `parseInt`'s double is
exact), and on every `0x`-prefixed string whose longest hex-digit prefix
denotes a value below `2^53`, `normalizeIPv4` equals the reference
canonicalization `normalizeIPv4Spec`, which accepts, in order: a nonempty
all-digit string with decimal value in the open interval `(0, 2^32 − 1)`;
otherwise a `0x`-prefixed string, canonicalizing its longest hex-digit
prefix mod `2^32`; otherwise any string starting with `0` (except `"0"`
itself, including dotted strings such as `010.0.0.1`), canonicalizing its
longest octal-digit prefix mod `2^32`; otherwise exactly four
dot-separated decimal segments (an empty segment counting as `0`) with
values in `[0,255]`, re-rendered in decimal; every other string of the
fragment is invalid.  Outside the fragment the double semantics of
`Number`/`parseInt` — exponent and fraction forms (`1.2.3.4e0` normalizes
to `1.2.3.4`, `1.2.3.25e-1` even to `1.2.3.2.5`), whitespace, hex segment
literals, rounding above `2^53` (`0x20000000000001` gives `0.0.0.0`) —
produce further outputs that this model deliberately does not
characterize.  All hex/octal/decimal encodings of `127.0.0.1` still
normalize identically, and the listed malformed inputs are rejected. -/
theorem claim_C4 :
    (∀ l : List Char,
      ((∀ c ∈ l, isDigitC c = true ∨ c = '.') ∧
          (jsParseInt8 l).getD 0 < 2 ^ 53) ∨
        (startsWithC ['0', 'x'] l = true ∧ (jsParseInt16 l).getD 0 < 2 ^ 53) →
      normalizeIPv4C l = normalizeIPv4Spec l) ∧
    normalizeIPv4 "2130706433" = some "127.0.0.1" ∧
    normalizeIPv4 "0x7f000001" = some "127.0.0.1" ∧
    normalizeIPv4 "017700000001" = some "127.0.0.1" ∧
    normalizeIPv4 "127.0.0.1" = some "127.0.0.1" ∧
    normalizeIPv4 "192.168.001.001" = some "192.168.1.1" ∧
    normalizeIPv4 "" = none ∧
    normalizeIPv4 "192.168.1" = none ∧
    normalizeIPv4 "192.168.1.1.1" = none ∧
    normalizeIPv4 "192.168.1.256" = none ∧
    normalizeIPv4 "192.168.1.-1" = none ∧
    normalizeIPv4 "not.an.ip.address" = none ∧
    normalizeIPv4 "::1" = none :=
  ⟨fun l _ => normalizeIPv4_refines l, by decide⟩

/-- Claim C4, witness: a dotted-decimal input with leading zeros and a hex
input, both inside the exactly-modelled fragment. -/
theorem claim_C4_witness :
    normalizeIPv4C ("192.168.001.001".data) = normalizeIPv4Spec ("192.168.001.001".data) ∧
    normalizeIPv4C ("0x7f000001".data) = normalizeIPv4Spec ("0x7f000001".data) :=
  ⟨claim_C4.1 ("192.168.001.001".data) (Or.inl ⟨by decide, by decide⟩),
   claim_C4.1 ("0x7f000001".data) (Or.inr ⟨by decide, by decide⟩)⟩


end UrlFetcher
